import Mathlib

/-!
Verification development for the search-index synchronization subsystem of the
XivRepo API server (a Rust/actix web service backed by PostgreSQL and a
MeiliSearch index).

The Rust sources are shallowly embedded: the relational store is a record of
row lists, every SQL query becomes a pure lookup function over it, fallible
paths return `Except`, and the request handlers (`mod_edit`, `mod_delete`)
become computations in a small state monad that threads the store, a trace of
search-index effects, and an oracle deciding which external calls succeed.

Embedded sources:
  * src/search/indexing/local_import.rs  (`index_local`, `query_one`)
  * src/routes/mods.rs                   (`mod_edit`, `mod_delete`, `delete_from_index`)
  * src/scheduler.rs                     (`Scheduler::run`)
  * src/database/models/mod_item.rs      (`Mod::get_full`, `Mod::remove_full`)
  * src/models/users.rs                  (`Role`)
Parts of the crate referenced by those files but not present in the source
tree (the `ModStatus` enum, the `CreationQueue`, the `Permissions` bitflags,
team-member lookups, the id `Display` implementations) are modelled from the
specification; each such definition marks this in its doc comment.
-/

namespace XivRepo

/-- Little-endian decimal digits of a number, with explicit fuel so that
the definition is structurally recursive (and hence evaluates inside the
kernel); with fuel at least `n` the fuel never runs out. -/
def decDigitsAux : Nat → Nat → List Nat
  | 0, _ => []
  | fuel + 1, n => if n = 0 then [] else n % 10 :: decDigitsAux fuel (n / 10)

/-- Modelled from the spec: the id rendering of `models::ids::ModId` /
`UserId` (src/models/ids.rs, not under src/).  The spec forms a document id
as `<host-tag>-<entity-id>`; the entity id is rendered as its decimal
digits.  The only facts the development relies on are that both the upsert
path and the delete path apply this same rendering, and that it is
injective. -/
def showId (n : Nat) : String :=
  String.mk (((decDigitsAux n n).reverse).map Nat.digitChar)

/-- The host tag written in front of every document id; the literal string
in `format!("local-{}", ...)` in src/search/indexing/local_import.rs and in
`delete_from_index` in src/routes/mods.rs. -/
def hostTag : String := "local"

/-- The index key `delete_from_index` deletes (src/routes/mods.rs line 1158):
`format!("local-{}", id)`. -/
def deleteDocId (id : Nat) : String := hostTag ++ "-" ++ showId id

/-- A timestamp (`chrono::DateTime<Utc>` in the source), reduced to its
epoch-second value, which is all the indexing code observes of it. -/
structure DateTime where
  seconds : Int
deriving DecidableEq, Repr

/-- `DateTime::timestamp()` of chrono: the epoch-second value. -/
def DateTime.timestamp (d : DateTime) : Int := d.seconds

/-- Modelled from the spec: the `ModStatus` enum (src/models/mods.rs, not
under src/).  The spec lists the statuses Draft, Pending, Approved,
Rejected, Hidden; the searchable ("publicly visible") subset is exactly
Approved, matching the spec scenarios (Approved is indexed, Rejected is
deleted from the index). -/
inductive ModStatus where
  | approved
  | rejected
  | pending
  | draft
  | hidden
  | unknown
deriving DecidableEq, Repr

/-- Modelled from the spec: `ModStatus::from_str` (src/models/mods.rs, not
under src/), decoding the status name stored in the `statuses` table. -/
def ModStatus.from_str (s : String) : ModStatus :=
  if s = "approved" then .approved
  else if s = "rejected" then .rejected
  else if s = "pending" then .pending
  else if s = "draft" then .draft
  else if s = "hidden" then .hidden
  else .unknown

/-- Modelled from the spec: `ModStatus::as_str`, the name under which a
status is stored in the `statuses` table. -/
def ModStatus.as_str : ModStatus → String
  | .approved => "approved"
  | .rejected => "rejected"
  | .pending => "pending"
  | .draft => "draft"
  | .hidden => "hidden"
  | .unknown => "unknown"

/-- Modelled from the spec: `ModStatus::is_searchable` (src/models/mods.rs,
not under src/): exactly the publicly visible subset of statuses is
searchable. -/
def ModStatus.is_searchable : ModStatus → Bool
  | .approved => true
  | _ => false

/-- `Role` from src/models/users.rs. -/
inductive Role where
  | developer
  | moderator
  | admin
deriving DecidableEq, Repr

/-- `Role::is_mod` from src/models/users.rs. -/
def Role.is_mod : Role → Bool
  | .developer => false
  | .moderator => true
  | .admin => true

/-- Modelled from the spec: the `Permissions` bitflags
(src/models/teams.rs, not under src/); only the flags the embedded
handlers consult are kept. -/
structure Permissions where
  edit_details : Bool
  edit_body : Bool
  delete_mod : Bool
deriving DecidableEq, Repr

/-- `Permissions::ALL`. -/
def Permissions.all : Permissions := ⟨true, true, true⟩

/-- Modelled from the spec: the owner role string `OWNER_ROLE`
(src/models/teams.rs, not under src/). -/
def ownerRole : String := "Owner"

/-- One row of the `mods` table, with the columns the embedded code
reads or writes. -/
structure ModRow where
  id : Nat
  title : String
  description : String
  downloads : Int
  follows : Int
  icon_url : Option String
  body : String
  body_url : Option String
  published : DateTime
  updated : DateTime
  team_id : Nat
  status : Nat
  slug : Option String
  is_nsfw : Bool
  issues_url : Option String
  source_url : Option String
  wiki_url : Option String
  discord_url : Option String
deriving DecidableEq, Repr

/-- One row of the `users` table (the columns the owner join reads). -/
structure UserRow where
  id : Nat
  username : String
deriving DecidableEq, Repr

/-- One row of the `team_members` table.  The permissions column is
modelled from the spec (src/database/models/team_item.rs is not under
src/). -/
structure TeamMemberRow where
  team_id : Nat
  user_id : Nat
  role : String
  permissions : Permissions
deriving DecidableEq, Repr

/-- The slice of the relational primary store the indexing subsystem
touches: the `mods`, `statuses`, `mods_categories`, `categories`, `users`,
`team_members`, `donation_platforms` and `mods_donations` tables. -/
structure Db where
  mods : List ModRow
  statuses : List (Nat × String)
  modsCategories : List (Nat × Nat)
  categories : List (Nat × String)
  users : List UserRow
  teamMembers : List TeamMemberRow
  donationPlatforms : List (String × Nat)
  modsDonations : List (Nat × Nat × String)
deriving DecidableEq, Repr

/-- `SELECT status FROM statuses WHERE id = $1` (fetch_one): the status
name stored for a status id, if the row exists. -/
def fetchStatusName (db : Db) (sid : Nat) : Option String :=
  (db.statuses.find? (fun p => p.1 == sid)).map (fun p => p.2)

/-- The category join of local_import.rs: `SELECT c.category FROM
mods_categories mc INNER JOIN categories c ON mc.joining_category_id=c.id
WHERE mc.joining_mod_id = $1`. -/
def fetchCategories (db : Db) (modId : Nat) : List String :=
  (db.modsCategories.filter (fun p => p.1 == modId)).filterMap
    (fun p => (db.categories.find? (fun c => c.1 == p.2)).map (fun c => c.2))

/-- The owner join of local_import.rs: `SELECT u.id, u.username FROM users
u INNER JOIN team_members tm ON tm.user_id = u.id WHERE tm.team_id = $2
AND tm.role = $1` with the owner role, fetched with fetch_one (first
matching row, `none` when no row matches). -/
def fetchOwner (db : Db) (teamId : Nat) : Option UserRow :=
  (db.teamMembers.find? (fun tm => tm.team_id == teamId && tm.role == ownerRole)).bind
    (fun tm => db.users.find? (fun u => u.id == tm.user_id))

/-- Process configuration plus search-engine state the handlers observe:
the `SITE_URL` environment variable and the collections (indexes) the
engine lists in `client.get_indexes()`. -/
structure SearchEnv where
  siteUrl : String
  collections : List String
deriving Repr

/-- Modelled from the spec: the `UploadSearchMod` document struct
(src/search/mod.rs, not under src/); its fields are exactly the ones the
two construction sites in src/search/indexing/local_import.rs populate,
matching the SearchDocument of the spec data model. -/
structure UploadSearchMod where
  mod_id : String
  title : String
  description : String
  categories : List String
  follows : Int
  downloads : Int
  page_url : String
  icon_url : String
  author : String
  author_url : String
  date_created : DateTime
  created_timestamp : Int
  date_modified : DateTime
  modified_timestamp : Int
  is_nsfw : Bool
  host : String
  slug : Option String
deriving DecidableEq, Repr

/-- The document construction shared verbatim by `index_local` (lines
77-95) and `query_one` (lines 152-170) of
src/search/indexing/local_import.rs. -/
def mkDoc (env : SearchEnv) (m : ModRow) (categories : List String)
    (user : UserRow) : UploadSearchMod :=
  { mod_id := hostTag ++ "-" ++ showId m.id
    title := m.title
    description := m.description
    categories := categories
    follows := m.follows
    downloads := m.downloads
    page_url := env.siteUrl ++ "/mod/" ++ showId m.id
    icon_url := m.icon_url.getD ""
    author := user.username
    author_url := env.siteUrl ++ "/user/" ++ showId user.id
    date_created := m.published
    created_timestamp := m.published.timestamp
    date_modified := m.updated
    modified_timestamp := m.updated.timestamp
    is_nsfw := m.is_nsfw
    host := "xivrepo"
    slug := m.slug }

/-- Errors of the bulk import path (`IndexingError` of
src/search/indexing/mod.rs): a row the code fetches with `fetch_one` was
absent, or the environment variable was missing. -/
inductive IndexingError where
  | rowNotFound
  | envMissing
deriving DecidableEq, Repr

/-- Whether a mod row is searchable in a store snapshot: its status row
resolves and decodes to a searchable status.  This is the test
`index_local` performs (status fetch, `ModStatus::from_str`,
`is_searchable`). -/
def searchableRow (db : Db) (m : ModRow) : Bool :=
  match fetchStatusName db m.status with
  | some name => (ModStatus.from_str name).is_searchable
  | none => false

/-- The loop body of `index_local` (src/search/indexing/local_import.rs
lines 21-97) over the stream of row results: a row the stream fails to
decode (`if let Ok(mod_data) = result` false) is skipped; for a decoded
row the status row is fetched with `fetch_one` and the `?` operator (a
missing row aborts the run), non-searchable rows are skipped, the
categories and owner joins run (the owner `fetch_one` with `?` aborts the
run when no owner resolves), and the document is appended. -/
def indexLocalGo (env : SearchEnv) (db : Db) :
    List (Except Unit ModRow) → Except IndexingError (List UploadSearchMod)
  | [] => Except.ok []
  | (Except.error _) :: rest => indexLocalGo env db rest
  | (Except.ok m) :: rest =>
    match fetchStatusName db m.status with
    | none => Except.error IndexingError.rowNotFound
    | some name =>
      if (ModStatus.from_str name).is_searchable then
        match fetchOwner db m.team_id with
        | none => Except.error IndexingError.rowNotFound
        | some user =>
          match indexLocalGo env db rest with
          | Except.ok docs =>
              Except.ok (mkDoc env m (fetchCategories db m.id) user :: docs)
          | Except.error e => Except.error e
      else indexLocalGo env db rest

/-- `index_local` of src/search/indexing/local_import.rs: stream every row
of the `mods` table and run the loop body.  The nominal stream yields
every row successfully; `indexLocalGo` keeps the behaviour on streams
containing decode failures. -/
def index_local (env : SearchEnv) (db : Db) :
    Except IndexingError (List UploadSearchMod) :=
  indexLocalGo env db (db.mods.map Except.ok)

/-- `query_one` of src/search/indexing/local_import.rs (lines 102-171):
fetch the mod row by id (fetch_one), run the category and owner joins,
and build the document.  It performs no searchability check. -/
def query_one (env : SearchEnv) (db : Db) (id : Nat) :
    Except IndexingError UploadSearchMod :=
  match db.mods.find? (fun m => m.id == id) with
  | none => Except.error IndexingError.rowNotFound
  | some m =>
    match fetchOwner db m.team_id with
    | none => Except.error IndexingError.rowNotFound
    | some user => Except.ok (mkDoc env m (fetchCategories db m.id) user)

/-! ## The request-handler monad

`mod_edit` and `mod_delete` (src/routes/mods.rs) run a sequence of external
calls (primary-store queries and updates, search-engine calls) interleaved
with pure control flow.  They are embedded in a state monad whose state
carries the evolving store, the trace of search-index effects the request
has issued (queue adds and synchronous index deletes), a counter of
external calls made so far, and an oracle deciding which external call
succeeds: oracle position `n` decides the fate of the `n`-th external call
(store-connectivity or engine failures). -/

/-- The errors `mod_edit` / `mod_delete` surface (`ApiError` of
src/routes/mod.rs; message payloads are not modelled). -/
inductive ApiError where
  | authenticationError
  | customAuthenticationError
  | invalidInputError
  | databaseError
  | searchIndexError
deriving DecidableEq, Repr

/-- A search-index side effect of a request: an `add` on the Creation
Queue, or a synchronous delete-by-id in one engine collection. -/
inductive Effect where
  | queueAdd (doc : UploadSearchMod)
  | indexDelete (collection : String) (docId : String)
deriving DecidableEq, Repr

/-- Handler state: evolving store, trace of index effects, external-call
counter, and success oracle for external calls. -/
structure EditSt where
  db : Db
  trace : List Effect
  calls : Nat
  oracle : Nat → Bool

/-- The handler monad. -/
def M (α : Type) : Type := EditSt → Except ApiError α × EditSt

/-- Monadic return. -/
def M.pure (a : α) : M α := fun s => (Except.ok a, s)

/-- Monadic bind: propagate the first error, thread the state. -/
def M.bind (x : M α) (f : α → M β) : M β := fun s =>
  match x s with
  | (Except.ok a, s1) => f a s1
  | (Except.error e, s1) => (Except.error e, s1)

instance : Monad M where
  pure := M.pure
  bind := M.bind

/-- Abort the request with an error (an `Err` return / `?` propagation). -/
def M.throw (e : ApiError) : M α := fun s => (Except.error e, s)

/-- Read the current handler state. -/
def getSt : M EditSt := fun s => (Except.ok s, s)

/-- Replace the store (the visible effect of an UPDATE / INSERT / DELETE
inside the open transaction). -/
def setDb (db : Db) : M Unit := fun s => (Except.ok (), { s with db := db })

/-- Record a search-index effect. -/
def emit (e : Effect) : M Unit :=
  fun s => (Except.ok (), { s with trace := s.trace ++ [e] })

/-- One external call: consult the oracle at the current call counter;  on
failure the handler aborts with the given error (the `?` / `map_err`
returns of the source). -/
def extCall (e : ApiError) : M Unit := fun s =>
  if s.oracle s.calls then (Except.ok (), { s with calls := s.calls + 1 })
  else (Except.error e, { s with calls := s.calls + 1 })

/-- Rewrite one mod row in place (an `UPDATE mods SET ... WHERE id = $2`). -/
def updateModRow (db : Db) (modId : Nat) (f : ModRow → ModRow) : Db :=
  { db with mods := db.mods.map (fun m => if m.id == modId then f m else m) }

/-- `Mod::get_full` (src/database/models/mod_item.rs lines 444-521)
restricted to the fields `mod_edit` consumes: the row joined with its
status name (INNER JOIN statuses), decoded with `ModStatus::from_str`.
A missing status row makes the join empty, hence `none`. -/
def getFull (db : Db) (modId : Nat) : Option (ModRow × ModStatus) :=
  (db.mods.find? (fun m => m.id == modId)).bind fun m =>
    (fetchStatusName db m.status).map fun name => (m, ModStatus.from_str name)

/-- Modelled from the spec: `TeamMember::get_from_user_id`
(src/database/models/team_item.rs, not under src/): the membership row of
a user in a team, if any. -/
def getFromUserId (db : Db) (teamId : Nat) (userId : Nat) :
    Option TeamMemberRow :=
  db.teamMembers.find? (fun tm => tm.team_id == teamId && tm.user_id == userId)

/-- Modelled from the spec: `TeamMember::get_from_user_id_mod`
(src/database/models/team_item.rs, not under src/): the membership row of
a user in the owning team of a mod. -/
def getFromUserIdMod (db : Db) (modId : Nat) (userId : Nat) :
    Option TeamMemberRow :=
  (db.mods.find? (fun m => m.id == modId)).bind fun m =>
    getFromUserId db m.team_id userId

/-- Modelled from the spec: `StatusId::get_id`
(src/database/models/ids.rs, not under src/): the id under which a status
name is stored in the `statuses` table. -/
def statusIdGetId (db : Db) (st : ModStatus) : Option Nat :=
  (db.statuses.find? (fun p => p.2 == st.as_str)).map (fun p => p.1)

/-- Modelled from the spec: `Category::get_id`
(src/database/models/categories.rs, not under src/): the id of a category
name. -/
def categoryGetId (db : Db) (name : String) : Option Nat :=
  (db.categories.find? (fun p => p.2 == name)).map (fun p => p.1)

/-- Modelled from the spec: `DonationPlatformId::get_id`
(src/database/models/ids.rs, not under src/): the id of a donation
platform short name. -/
def donationPlatformGetId (db : Db) (short : String) : Option Nat :=
  (db.donationPlatforms.find? (fun p => p.1 == short)).map (fun p => p.2)

/-- The authenticated caller of a request. -/
structure AuthUser where
  id : Nat
  role : Role
deriving DecidableEq, Repr

/-- The `EditMod` request body (src/routes/mods.rs lines 376-415).
Double-`Option` fields distinguish an absent field from an explicit
null. -/
structure EditMod where
  title : Option String
  description : Option String
  body : Option String
  status : Option ModStatus
  categories : Option (List String)
  issues_url : Option (Option String)
  source_url : Option (Option String)
  wiki_url : Option (Option String)
  discord_url : Option (Option String)
  donation_urls : Option (List (String × String))
  slug : Option (Option String)
  is_nsfw : Option Bool
deriving DecidableEq, Repr

/-- The all-absent request body. -/
def EditMod.empty : EditMod :=
  ⟨none, none, none, none, none, none, none, none, none, none, none, none⟩

/-- `delete_from_index` (src/routes/mods.rs lines 1150-1162), inner loop:
for each collection the engine listed, issue delete-by-id of
`format!("local-{}", id)`; every `delete_document` is an external engine
call that may fail. -/
def deleteLoop (modId : Nat) : List String → M Unit
  | [] => M.pure ()
  | c :: rest => do
    extCall ApiError.searchIndexError
    emit (Effect.indexDelete c (deleteDocId modId))
    deleteLoop modId rest

/-- `delete_from_index` (src/routes/mods.rs lines 1150-1162):
`client.get_indexes()` (an engine call), then delete the document id from
every listed collection. -/
def deleteFromIndexM (env : SearchEnv) (modId : Nat) : M Unit := do
  extCall ApiError.searchIndexError
  deleteLoop modId env.collections

/-- The `query_one` call inside the `mod_edit` status branch
(src/routes/mods.rs lines 554-560): run the store reads of `query_one` on
the current transaction state (one gated external call), convert an
indexing error into the handler error, and enqueue the built document on
the Creation Queue (`indexing_queue.add(index_mod)`). -/
def queryOneM (env : SearchEnv) (modId : Nat) : M Unit := do
  extCall ApiError.databaseError
  let s ← getSt
  match query_one env s.db modId with
  | Except.error _ => M.throw ApiError.databaseError
  | Except.ok d => emit (Effect.queueAdd d)

/-- The title branch of `mod_edit` (src/routes/mods.rs lines 458-484):
permission check, length bounds 3-256, UPDATE. -/
def titleBranch (req : EditMod) (perms : Permissions) (modId : Nat) :
    M Unit :=
  match req.title with
  | none => M.pure ()
  | some title =>
    if !perms.edit_details then M.throw ApiError.customAuthenticationError
    else if title.length > 256 || title.length < 3 then
      M.throw ApiError.invalidInputError
    else do
      extCall ApiError.databaseError
      let s ← getSt
      setDb (updateModRow s.db modId (fun m => { m with title := title }))

/-- The description branch of `mod_edit` (lines 486-512): permission
check, length bounds 3-2048, UPDATE. -/
def descriptionBranch (req : EditMod) (perms : Permissions) (modId : Nat) :
    M Unit :=
  match req.description with
  | none => M.pure ()
  | some description =>
    if !perms.edit_details then M.throw ApiError.customAuthenticationError
    else if description.length > 2048 || description.length < 3 then
      M.throw ApiError.invalidInputError
    else do
      extCall ApiError.databaseError
      let s ← getSt
      setDb (updateModRow s.db modId
        (fun m => { m with description := description }))

/-- The status branch of `mod_edit` (src/routes/mods.rs lines 514-562):
permission check, moderator gate on Approved/Rejected, `StatusId::get_id`
(absent name is invalid input), UPDATE of the status column, then the
synchronization protocol: searchable to non-searchable issues the
synchronous `delete_from_index`; non-searchable to searchable builds the
document with `query_one` and enqueues it. -/
def statusBranch (env : SearchEnv) (user : AuthUser) (req : EditMod)
    (perms : Permissions) (modId : Nat) (oldStatus : ModStatus) : M Unit :=
  match req.status with
  | none => M.pure ()
  | some status =>
    if !perms.edit_details then M.throw ApiError.customAuthenticationError
    else if (status == ModStatus.rejected || status == ModStatus.approved)
        && !user.role.is_mod then
      M.throw ApiError.customAuthenticationError
    else do
      extCall ApiError.databaseError
      let s ← getSt
      match statusIdGetId s.db status with
      | none => M.throw ApiError.invalidInputError
      | some statusId => do
        extCall ApiError.databaseError
        let s2 ← getSt
        setDb (updateModRow s2.db modId (fun m => { m with status := statusId }))
        if oldStatus.is_searchable && !status.is_searchable then
          deleteFromIndexM env modId
        else if !oldStatus.is_searchable && status.is_searchable then
          queryOneM env modId
        else M.pure ()

/-- The per-category loop of the categories branch (lines 589-613):
`Category::get_id` (absent category is invalid input) then INSERT. -/
def catLoop (modId : Nat) : List String → M Unit
  | [] => M.pure ()
  | c :: rest => do
    extCall ApiError.databaseError
    let s ← getSt
    match categoryGetId s.db c with
    | none => M.throw ApiError.invalidInputError
    | some cid => do
      extCall ApiError.databaseError
      let s2 ← getSt
      setDb { s2.db with modsCategories := s2.db.modsCategories ++ [(modId, cid)] }
      catLoop modId rest

/-- The categories branch of `mod_edit` (lines 564-614): permission check,
at most 3 categories, DELETE of the existing join rows, then the insert
loop. -/
def categoriesBranch (req : EditMod) (perms : Permissions) (modId : Nat) :
    M Unit :=
  match req.categories with
  | none => M.pure ()
  | some cats =>
    if !perms.edit_details then M.throw ApiError.customAuthenticationError
    else if cats.length > 3 then M.throw ApiError.invalidInputError
    else do
      extCall ApiError.databaseError
      let s ← getSt
      setDb { s.db with
        modsCategories := s.db.modsCategories.filter (fun p => p.1 != modId) }
      catLoop modId cats

/-- One of the four optional-URL branches of `mod_edit` (issues, source,
wiki, discord; lines 616-734): permission check, 2048-byte bound on a
present URL, UPDATE of the respective column. -/
def urlBranch (field : Option (Option String)) (perms : Permissions)
    (modId : Nat) (write : Option String → ModRow → ModRow) : M Unit :=
  match field with
  | none => M.pure ()
  | some url =>
    if !perms.edit_details then M.throw ApiError.customAuthenticationError
    else if url.any (fun u => decide (u.length > 2048)) then
      M.throw ApiError.invalidInputError
    else do
      extCall ApiError.databaseError
      let s ← getSt
      setDb (updateModRow s.db modId (write url))

/-- Modelled from the spec: the slug branch parses the slug as a mod id
(`serde_json::from_str::<ModId>`, a base-62 decode living in
src/models/ids.rs, not under src/), modelled as a decimal parse.  No
claim depends on this parse; the branch issues no index effect either
way. -/
def slugParseModId (s : String) : Option Nat := s.toNat?

/-- The slug branch of `mod_edit` (lines 736-784): permission check,
length bounds 3-64, collision check of slugs that parse as mod ids
(an existing mod with that id is invalid input), UPDATE. -/
def slugBranch (req : EditMod) (perms : Permissions) (modId : Nat) :
    M Unit :=
  match req.slug with
  | none => M.pure ()
  | some slug =>
    if !perms.edit_details then M.throw ApiError.customAuthenticationError
    else do
      (match slug with
       | none => M.pure ()
       | some sl =>
         if sl.length > 64 || sl.length < 3 then
           M.throw ApiError.invalidInputError
         else
           match slugParseModId sl with
           | none => M.pure ()
           | some otherId => do
             extCall ApiError.databaseError
             let s ← getSt
             if (s.db.mods.find? (fun m => m.id == otherId)).isSome then
               M.throw ApiError.invalidInputError
             else M.pure ())
      extCall ApiError.databaseError
      let s2 ← getSt
      setDb (updateModRow s2.db modId (fun m => { m with slug := slug }))

/-- The per-donation loop of the donations branch (lines 805-830):
`DonationPlatformId::get_id` (absent platform is invalid input) then
INSERT. -/
def donationLoop (modId : Nat) : List (String × String) → M Unit
  | [] => M.pure ()
  | d :: rest => do
    extCall ApiError.databaseError
    let s ← getSt
    match donationPlatformGetId s.db d.1 with
    | none => M.throw ApiError.invalidInputError
    | some pid => do
      extCall ApiError.databaseError
      let s2 ← getSt
      setDb { s2.db with modsDonations := s2.db.modsDonations ++ [(modId, pid, d.2)] }
      donationLoop modId rest

/-- The donations branch of `mod_edit` (lines 786-831): permission check,
DELETE of the existing donation rows, then the insert loop. -/
def donationsBranch (req : EditMod) (perms : Permissions) (modId : Nat) :
    M Unit :=
  match req.donation_urls with
  | none => M.pure ()
  | some donations =>
    if !perms.edit_details then M.throw ApiError.customAuthenticationError
    else do
      extCall ApiError.databaseError
      let s ← getSt
      setDb { s.db with
        modsDonations := s.db.modsDonations.filter (fun p => p.1 != modId) }
      donationLoop modId donations

/-- The body branch of `mod_edit` (lines 833-858): EDIT_BODY permission,
65536-byte bound, UPDATE. -/
def bodyBranch (req : EditMod) (perms : Permissions) (modId : Nat) :
    M Unit :=
  match req.body with
  | none => M.pure ()
  | some body =>
    if !perms.edit_body then M.throw ApiError.customAuthenticationError
    else if body.length > 65536 then M.throw ApiError.invalidInputError
    else do
      extCall ApiError.databaseError
      let s ← getSt
      setDb (updateModRow s.db modId (fun m => { m with body := body }))

/-- The is_nsfw branch of `mod_edit` (lines 861-880): permission check,
UPDATE. -/
def isNsfwBranch (req : EditMod) (perms : Permissions) (modId : Nat) :
    M Unit :=
  match req.is_nsfw with
  | none => M.pure ()
  | some flag =>
    if !perms.edit_details then M.throw ApiError.customAuthenticationError
    else do
      extCall ApiError.databaseError
      let s ← getSt
      setDb (updateModRow s.db modId (fun m => { m with is_nsfw := flag }))

/-- The permission resolution of `mod_edit` (lines 442-450): a team
member contributes their permissions; otherwise a moderator gets all
permissions; otherwise none. -/
def permsFor (member : Option TeamMemberRow) (user : AuthUser) :
    Option Permissions :=
  match member with
  | some m => some m.permissions
  | none => if user.role.is_mod then some Permissions.all else none

/-- The body of `mod_edit` once permissions resolved (lines 452-886):
begin the transaction, run every field branch in source order, commit,
return 200. -/
def editBody (env : SearchEnv) (user : AuthUser) (modId : Nat)
    (req : EditMod) (oldStatus : ModStatus) (perms : Permissions) : M Nat := do
  extCall ApiError.databaseError
  titleBranch req perms modId
  descriptionBranch req perms modId
  statusBranch env user req perms modId oldStatus
  categoriesBranch req perms modId
  urlBranch req.issues_url perms modId (fun u m => { m with issues_url := u })
  urlBranch req.source_url perms modId (fun u m => { m with source_url := u })
  urlBranch req.wiki_url perms modId (fun u m => { m with wiki_url := u })
  urlBranch req.discord_url perms modId (fun u m => { m with discord_url := u })
  slugBranch req perms modId
  donationsBranch req perms modId
  bodyBranch req perms modId
  isNsfwBranch req perms modId
  extCall ApiError.databaseError
  M.pure 200

/-- `mod_edit` (src/routes/mods.rs lines 417-895): authenticate,
`Mod::get_full` (absent mod returns 404), team-member lookup, permission
resolution (no permissions is an authentication error), then the edit
body.  The returned Nat is the HTTP status of an `Ok` response. -/
def mod_edit (env : SearchEnv) (user : AuthUser) (modId : Nat)
    (req : EditMod) : M Nat := do
  extCall ApiError.authenticationError
  extCall ApiError.databaseError
  let s ← getSt
  match getFull s.db modId with
  | none => M.pure 404
  | some (modItem, oldStatus) => do
    extCall ApiError.databaseError
    let s2 ← getSt
    match permsFor (getFromUserId s2.db modItem.team_id user.id) user with
    | none => M.throw ApiError.customAuthenticationError
    | some perms => editBody env user modId req oldStatus perms

/-- `Mod::remove_full` (src/database/models/mod_item.rs lines 288-...)
effect on the store: delete the mod row and its dependent rows. -/
def removeFullDb (db : Db) (modId : Nat) : Db :=
  { db with
    mods := db.mods.filter (fun m => m.id != modId)
    modsCategories := db.modsCategories.filter (fun p => p.1 != modId)
    modsDonations := db.modsDonations.filter (fun p => p.1 != modId) }

/-- `mod_delete` (src/routes/mods.rs lines 990-1027): authenticate;
non-moderators need the DELETE_MOD permission on the owning team (no
membership is invalid input); `Mod::remove_full` (returning whether the
mod existed); then `delete_from_index` unconditionally; 200 when the mod
existed, 404 otherwise. -/
def mod_delete (env : SearchEnv) (user : AuthUser) (modId : Nat) : M Nat := do
  extCall ApiError.authenticationError
  (if !user.role.is_mod then do
    extCall ApiError.databaseError
    let s ← getSt
    match getFromUserIdMod s.db modId user.id with
    | none => M.throw ApiError.invalidInputError
    | some tm =>
      if !tm.permissions.delete_mod then
        M.throw ApiError.customAuthenticationError
      else M.pure ()
   else M.pure ())
  extCall ApiError.databaseError
  let s ← getSt
  let existed := (s.db.mods.find? (fun m => m.id == modId)).isSome
  setDb (removeFullDb s.db modId)
  deleteFromIndexM env modId
  if existed then M.pure 200 else M.pure 404

/-- Run `mod_edit` from a quiescent state: empty trace, call counter 0.
On an error return the open transaction is dropped, so the store reverts
to its pre-request state; on an `Ok` return the commit has persisted the
accumulated store. -/
def modEditRun (env : SearchEnv) (user : AuthUser) (modId : Nat)
    (req : EditMod) (db : Db) (oracle : Nat → Bool) :
    Except ApiError Nat × List Effect × Db :=
  match mod_edit env user modId req ⟨db, [], 0, oracle⟩ with
  | (Except.ok n, s) => (Except.ok n, s.trace, s.db)
  | (Except.error e, s) => (Except.error e, s.trace, db)

/-- Run `mod_delete` from a quiescent state (its store writes autocommit
per statement; the store outcome is not at issue in the claims, so the
final store is reported as the handler left it on success and as the
original on error, matching the per-statement executor). -/
def modDeleteRun (env : SearchEnv) (user : AuthUser) (modId : Nat)
    (db : Db) (oracle : Nat → Bool) :
    Except ApiError Nat × List Effect × Db :=
  match mod_delete env user modId ⟨db, [], 0, oracle⟩ with
  | (Except.ok n, s) => (Except.ok n, s.trace, s.db)
  | (Except.error e, s) => (Except.error e, s.trace, db)

/-! ## The Creation Queue -/

/-- Modelled from the spec: the `CreationQueue`
(src/search/indexing/queue.rs, not under src/): a concurrency-safe buffer
of pending document upserts, deduplicated by document id; `add` stores a
document keyed by its id, replacing any prior pending entry for that id;
`take` (drain) removes and returns everything. -/
structure CreationQueue where
  entries : List UploadSearchMod
deriving DecidableEq, Repr

/-- The empty queue. -/
def CreationQueue.empty : CreationQueue := ⟨[]⟩

/-- Modelled from the spec: `CreationQueue::add`: store the document
keyed by its id, replacing any prior pending entry with the same id. -/
def CreationQueue.add (q : CreationQueue) (d : UploadSearchMod) :
    CreationQueue :=
  ⟨d :: q.entries.filter (fun e => e.mod_id != d.mod_id)⟩

/-- Fold a sequence of `add` calls over a queue. -/
def CreationQueue.addAll (q : CreationQueue) (ds : List UploadSearchMod) :
    CreationQueue :=
  ds.foldl CreationQueue.add q

/-- Modelled from the spec: `CreationQueue::take` (the drain): remove and
return all pending entries, leaving the queue empty. -/
def CreationQueue.drain (q : CreationQueue) :
    List UploadSearchMod × CreationQueue :=
  (q.entries, ⟨[]⟩)

/-- The pending entries of a queue for one document id. -/
def CreationQueue.pendingFor (q : CreationQueue) (id : String) :
    List UploadSearchMod :=
  q.entries.filter (fun e => e.mod_id == id)

/-! ## The Scheduler

`Scheduler::run` (src/scheduler.rs lines 16-23) executes
`time::interval(interval).for_each_concurrent(2, move |_| task())` on a
dedicated arbiter.  Its concurrency behaviour is embedded as a transition
system: a tick may start a task run only while fewer than `limit` runs
are in flight (the combinator does not poll the interval stream while the
limit is reached, so further ticks wait), and a run may finish. -/

/-- The concurrency limit passed to `for_each_concurrent` in
`Scheduler::run`. -/
def schedulerConcurrencyLimit : Nat := 2

/-- The scheduler state for one registered task: the number of in-flight
runs. -/
structure SchedulerState where
  inFlight : Nat
deriving DecidableEq, Repr

/-- One transition of the `for_each_concurrent(limit, task)` combinator:
a tick starts a run only below the limit; a run may complete. -/
inductive SchedulerStep (limit : Nat) : SchedulerState → SchedulerState → Prop
  | tick (s : SchedulerState) : s.inFlight < limit →
      SchedulerStep limit s ⟨s.inFlight + 1⟩
  | complete (s : SchedulerState) : 0 < s.inFlight →
      SchedulerStep limit s ⟨s.inFlight - 1⟩

/-- States reachable from the idle scheduler. -/
inductive SchedulerReachable (limit : Nat) : SchedulerState → Prop
  | init : SchedulerReachable limit ⟨0⟩
  | step {s s' : SchedulerState} : SchedulerReachable limit s →
      SchedulerStep limit s s' → SchedulerReachable limit s'

/-- Decidable equality for `Except` results, so concrete runs can be
checked by evaluation. -/
instance {ε α : Type} [DecidableEq ε] [DecidableEq α] :
    DecidableEq (Except ε α) := fun x y =>
  match x, y with
  | Except.ok a, Except.ok b =>
    if h : a = b then isTrue (by rw [h])
    else isFalse (fun c => h (by injection c))
  | Except.error a, Except.error b =>
    if h : a = b then isTrue (by rw [h])
    else isFalse (fun c => h (by injection c))
  | Except.ok _, Except.error _ => isFalse (fun c => Except.noConfusion c)
  | Except.error _, Except.ok _ => isFalse (fun c => Except.noConfusion c)

/-! ## Concrete fixtures

A small concrete store used by witnesses and counterexamples: one mod
(id 1, approved, one category, an owning team with one owner), and
variants of it. -/

/-- The mod row of the concrete store. -/
def exMod1 : ModRow :=
  { id := 1, title := "Alpha", description := "A test mod",
    downloads := 5, follows := 2, icon_url := none,
    body := "b", body_url := none,
    published := ⟨100⟩, updated := ⟨200⟩, team_id := 10,
    status := 1, slug := some "alpha", is_nsfw := false,
    issues_url := none, source_url := none, wiki_url := none,
    discord_url := none }

/-- The concrete store: mod 1 is approved and fully enrichable. -/
def exDb : Db :=
  { mods := [exMod1]
    statuses := [(1, "approved"), (2, "rejected"), (3, "draft")]
    modsCategories := [(1, 7)]
    categories := [(7, "art")]
    users := [{ id := 42, username := "owner" }]
    teamMembers := [{ team_id := 10, user_id := 42, role := "Owner",
                      permissions := Permissions.all }]
    donationPlatforms := []
    modsDonations := [] }

/-- The store with mod 1 in draft (non-searchable) status. -/
def exDbDraft : Db := { exDb with mods := [{ exMod1 with status := 3 }] }

/-- The store with the owning team membership removed: mod 1 is
searchable but its owner join cannot resolve. -/
def exDbNoOwner : Db := { exDb with teamMembers := [] }

/-- The concrete environment: one engine collection. -/
def exEnv : SearchEnv := { siteUrl := "https://x.io", collections := ["mods"] }

/-- A moderator caller. -/
def exUserMod : AuthUser := { id := 42, role := Role.moderator }

/-- The document `query_one` and `index_local` build for mod 1 of
`exDb`. -/
def exDoc1 : UploadSearchMod :=
  { mod_id := "local-1", title := "Alpha", description := "A test mod",
    categories := ["art"], follows := 2, downloads := 5,
    page_url := "https://x.io/mod/1", icon_url := "", author := "owner",
    author_url := "https://x.io/user/42", date_created := ⟨100⟩,
    created_timestamp := 100, date_modified := ⟨200⟩,
    modified_timestamp := 200, is_nsfw := false, host := "xivrepo",
    slug := some "alpha" }

/-- A request editing only the title. -/
def exReqTitle : EditMod := { EditMod.empty with title := some "New Title" }

/-- A request moving the status to rejected (leaving the searchable
subset). -/
def exReqReject : EditMod :=
  { EditMod.empty with status := some ModStatus.rejected }

/-- A request moving the status to rejected and also rewriting the
category list (the category write happens after the status branch). -/
def exReqRejectCats : EditMod :=
  { EditMod.empty with
      status := some ModStatus.rejected
      categories := some ["art"] }

/-- The store after the title edit commits. -/
def exDbTitled : Db :=
  { exDb with mods := [{ exMod1 with title := "New Title" }] }

/-- The store after the rejection commits (status id 2 is rejected). -/
def exDbRejected : Db :=
  { exDb with mods := [{ exMod1 with status := 2 }] }

/-- A minimal queue document. -/
def exQDoc1 : UploadSearchMod :=
  { mod_id := "local-9", title := "A", description := "d",
    categories := [], follows := 0, downloads := 0, page_url := "",
    icon_url := "", author := "x", author_url := "",
    date_created := ⟨0⟩, created_timestamp := 0, date_modified := ⟨0⟩,
    modified_timestamp := 0, is_nsfw := false, host := "xivrepo",
    slug := none }

/-- A second queue document with the same document id. -/
def exQDoc2 : UploadSearchMod := { exQDoc1 with title := "B" }

/-! ## Helper lemmas: id rendering is injective -/

theorem digitChar_inj_lt :
    ∀ a < 10, ∀ b < 10, Nat.digitChar a = Nat.digitChar b → a = b := by
  decide

theorem map_digitChar_injOn : ∀ (l1 l2 : List ℕ),
    (∀ x ∈ l1, x < 10) → (∀ x ∈ l2, x < 10) →
    l1.map Nat.digitChar = l2.map Nat.digitChar → l1 = l2
  | [], [], _, _, _ => rfl
  | [], _ :: _, _, _, h => by simp at h
  | _ :: _, [], _, _, h => by simp at h
  | a :: l1, b :: l2, h1, h2, h => by
    simp only [List.map_cons, List.cons.injEq] at h
    have hab : a = b :=
      digitChar_inj_lt a (h1 a (by simp)) b (h2 b (by simp)) h.1
    have htl : l1 = l2 :=
      map_digitChar_injOn l1 l2 (fun x hx => h1 x (by simp [hx]))
        (fun x hx => h2 x (by simp [hx])) h.2
    rw [hab, htl]

theorem decDigitsAux_eq_digits :
    ∀ (fuel n : Nat), n ≤ fuel → decDigitsAux fuel n = Nat.digits 10 n
  | 0, n, h => by
    have hn : n = 0 := Nat.le_zero.mp h
    subst hn
    simp [decDigitsAux]
  | fuel + 1, n, h => by
    by_cases hn : n = 0
    · subst hn
      simp [decDigitsAux]
    · have h1 : 0 < n := Nat.pos_of_ne_zero hn
      rw [Nat.digits_def' (by norm_num : (1:ℕ) < 10) h1]
      simp only [decDigitsAux, hn, if_false]
      congr 1
      exact decDigitsAux_eq_digits fuel (n / 10) (by
        have := Nat.div_lt_self h1 (by norm_num : (1:ℕ) < 10)
        omega)

theorem showId_eq_digits_string (n : Nat) :
    showId n = String.mk (((Nat.digits 10 n).reverse).map Nat.digitChar) := by
  unfold showId
  rw [decDigitsAux_eq_digits n n le_rfl]

theorem showId_injective : Function.Injective showId := by
  intro a b h
  rw [showId_eq_digits_string, showId_eq_digits_string] at h
  have hdata : ((Nat.digits 10 a).reverse.map Nat.digitChar) =
      ((Nat.digits 10 b).reverse.map Nat.digitChar) := congrArg String.data h
  have hrev := map_digitChar_injOn _ _
    (fun x hx => Nat.digits_lt_base (by norm_num) (List.mem_reverse.mp hx))
    (fun x hx => Nat.digits_lt_base (by norm_num) (List.mem_reverse.mp hx))
    hdata
  exact Nat.digits_inj_iff.mp (List.reverse_inj.mp hrev)

theorem string_append_left_cancel {s t1 t2 : String}
    (h : s ++ t1 = s ++ t2) : t1 = t2 := by
  have hd := congrArg String.data h
  simp only [String.data_append] at hd
  have := List.append_cancel_left hd
  cases t1
  cases t2
  exact congrArg String.mk this

theorem deleteDocId_injective : Function.Injective deleteDocId := by
  intro a b h
  unfold deleteDocId at h
  exact showId_injective (string_append_left_cancel h)

/-! ## Helper lemmas: the bulk import loop -/

/-- Under a snapshot where every status row resolves and every searchable
entity has a resolvable owner, the import loop over a clean stream
succeeds and its output is characterised: one document per searchable
row, each carrying that row's delete key, and containing the mapped
document of every searchable row. -/
theorem indexLocalGo_resolvable (env : SearchEnv) (db : Db) :
    ∀ l : List ModRow,
    (∀ m ∈ l, (fetchStatusName db m.status).isSome) →
    (∀ m ∈ l, searchableRow db m = true → (fetchOwner db m.team_id).isSome) →
    ∃ docs, indexLocalGo env db (l.map Except.ok) = Except.ok docs ∧
      docs.length = (l.filter (fun m => searchableRow db m)).length ∧
      (∀ d ∈ docs, ∃ m, m ∈ l ∧ searchableRow db m = true ∧
        d.mod_id = deleteDocId m.id) ∧
      (∀ m ∈ l, searchableRow db m = true →
        ∀ u, fetchOwner db m.team_id = some u →
          mkDoc env m (fetchCategories db m.id) u ∈ docs)
  | [], _, _ => ⟨[], rfl, by simp, by simp, by simp⟩
  | m :: rest, hstat, hown => by
    obtain ⟨docs, hrun, hlen, hmem, hall⟩ :=
      indexLocalGo_resolvable env db rest
        (fun x hx => hstat x (List.mem_cons_of_mem _ hx))
        (fun x hx h => hown x (List.mem_cons_of_mem _ hx) h)
    obtain ⟨name, hname⟩ :=
      Option.isSome_iff_exists.mp (hstat m (List.mem_cons_self _ _))
    by_cases hsrch : searchableRow db m = true
    · have hs' : (ModStatus.from_str name).is_searchable = true := by
        unfold searchableRow at hsrch
        rw [hname] at hsrch
        exact hsrch
      obtain ⟨u, hu⟩ :=
        Option.isSome_iff_exists.mp (hown m (List.mem_cons_self _ _) hsrch)
      refine ⟨mkDoc env m (fetchCategories db m.id) u :: docs, ?_, ?_, ?_, ?_⟩
      · simp [List.map_cons, indexLocalGo, hname, hs', hu, hrun]
      · rw [List.filter_cons_of_pos (by simpa using hsrch)]
        simp [hlen]
      · intro d hd
        rcases List.mem_cons.mp hd with hd | hd
        · exact ⟨m, List.mem_cons_self _ _, hsrch, by rw [hd]; rfl⟩
        · obtain ⟨x, hx, hsx, hidx⟩ := hmem d hd
          exact ⟨x, List.mem_cons_of_mem _ hx, hsx, hidx⟩
      · intro x hx hsx u' hu'
        rcases List.mem_cons.mp hx with hx | hx
        · subst hx
          have huu : u' = u := by
            rw [hu] at hu'
            exact (Option.some.inj hu').symm
          rw [huu]
          exact List.mem_cons_self _ _
        · exact List.mem_cons_of_mem _ (hall x hx hsx u' hu')
    · have hs0 : searchableRow db m = false := by
        cases hsb : searchableRow db m
        · rfl
        · exact absurd hsb hsrch
      have hs' : (ModStatus.from_str name).is_searchable = false := by
        unfold searchableRow at hs0
        rw [hname] at hs0
        exact hs0
      refine ⟨docs, ?_, ?_, ?_, ?_⟩
      · simp [List.map_cons, indexLocalGo, hname, hs', hrun]
      · rw [List.filter_cons_of_neg (by simp [hs0])]
        exact hlen
      · intro d hd
        obtain ⟨x, hx, hsx, hidx⟩ := hmem d hd
        exact ⟨x, List.mem_cons_of_mem _ hx, hsx, hidx⟩
      · intro x hx hsx u' hu'
        rcases List.mem_cons.mp hx with hx | hx
        · subst hx
          rw [hsx] at hs0
          exact absurd hs0 (by simp)
        · exact hall x hx hsx u' hu'

/-- Every document a successful import run returns carries the delete
key of one of the streamed rows (no resolvability hypotheses needed). -/
theorem indexLocalGo_ids (env : SearchEnv) (db : Db) :
    ∀ (rows : List (Except Unit ModRow)) (docs : List UploadSearchMod),
    indexLocalGo env db rows = Except.ok docs →
    ∀ d ∈ docs, ∃ m, Except.ok m ∈ rows ∧ d.mod_id = deleteDocId m.id
  | [], docs, h, d, hd => by
    simp only [indexLocalGo] at h
    injection h with h
    rw [← h] at hd
    simp at hd
  | Except.error e :: rest, docs, h, d, hd => by
    simp only [indexLocalGo] at h
    obtain ⟨m, hm, hid⟩ := indexLocalGo_ids env db rest docs h d hd
    exact ⟨m, List.mem_cons_of_mem _ hm, hid⟩
  | Except.ok m :: rest, docs, h, d, hd => by
    simp only [indexLocalGo] at h
    split at h
    · exact absurd h (by simp)
    · split at h
      · split at h
        · exact absurd h (by simp)
        · rename_i hu
          split at h
          · rename_i docs' hrec
            injection h with h
            rw [← h] at hd
            rcases List.mem_cons.mp hd with hd | hd
            · exact ⟨m, List.mem_cons_self _ _, by rw [hd]; rfl⟩
            · obtain ⟨x, hx, hidx⟩ :=
                indexLocalGo_ids env db rest docs' hrec d hd
              exact ⟨x, List.mem_cons_of_mem _ hx, hidx⟩
          · exact absurd h (by simp)
      · obtain ⟨x, hx, hidx⟩ := indexLocalGo_ids env db rest docs h d hd
        exact ⟨x, List.mem_cons_of_mem _ hx, hidx⟩

/-! ## C1 -/

/-- C1: over a primary-store snapshot in which every status row resolves
and every searchable entity has a resolvable owning account, a full
reindex run returns exactly one document per searchable entity — over N
entities of which H are non-searchable the result has N − H documents —
and no returned document carries a non-searchable entity's id. -/
theorem index_local_full_reindex (env : SearchEnv) (db : Db)
    (hstat : ∀ m ∈ db.mods, (fetchStatusName db m.status).isSome)
    (hown : ∀ m ∈ db.mods, searchableRow db m = true →
      (fetchOwner db m.team_id).isSome)
    (hids : (db.mods.map ModRow.id).Nodup) :
    ∃ docs, index_local env db = Except.ok docs ∧
      docs.length =
        db.mods.length - db.mods.countP (fun m => !searchableRow db m) ∧
      ∀ m ∈ db.mods, searchableRow db m = false →
        ∀ d ∈ docs, d.mod_id ≠ deleteDocId m.id := by
  obtain ⟨docs, hrun, hlen, hmem, _⟩ :=
    indexLocalGo_resolvable env db db.mods hstat hown
  refine ⟨docs, hrun, ?_, ?_⟩
  · have h1 : db.mods.length =
        db.mods.countP (fun m => searchableRow db m) +
        db.mods.countP (fun m => !searchableRow db m) := by
      simpa using
        List.length_eq_countP_add_countP (fun m => searchableRow db m) db.mods
    have h2 := List.countP_eq_length_filter (fun m => searchableRow db m) db.mods
    rw [hlen, ← h2]
    omega
  · intro m hm hns d hd h
    obtain ⟨m', hm', hs', hid⟩ := hmem d hd
    have hidm : m'.id = m.id := deleteDocId_injective (by rw [← hid, h])
    have : m' = m := List.inj_on_of_nodup_map hids hm' hm hidm
    rw [this] at hs'
    rw [hs'] at hns
    exact absurd hns (by simp)

/-- C1 witness: on the concrete store (one approved entity, owner and
status resolvable) the reindex returns exactly one document. -/
theorem index_local_full_reindex_witness :
    (∀ m ∈ exDb.mods, (fetchStatusName exDb m.status).isSome) ∧
    (∀ m ∈ exDb.mods, searchableRow exDb m = true →
      (fetchOwner exDb m.team_id).isSome) ∧
    (exDb.mods.map ModRow.id).Nodup ∧
    ∃ docs, index_local exEnv exDb = Except.ok docs ∧
      docs.length =
        exDb.mods.length - exDb.mods.countP (fun m => !searchableRow exDb m) ∧
      ∀ m ∈ exDb.mods, searchableRow exDb m = false →
        ∀ d ∈ docs, d.mod_id ≠ deleteDocId m.id := by
  refine ⟨by decide, by decide, by decide, ?_⟩
  exact index_local_full_reindex exEnv exDb (by decide) (by decide) (by decide)

/-! ## C5 -/

/-- C5 counterexample: on a snapshot where the single searchable entity
has no resolvable owning account, the whole bulk run aborts with an
error — the entity is not skipped and no run result is returned, contrary
to the claim that only the one entity would be dropped. -/
theorem index_local_owner_failure_aborts :
    index_local exEnv exDbNoOwner = Except.error IndexingError.rowNotFound ∧
    ∀ docs, index_local exEnv exDbNoOwner ≠ Except.ok docs := by
  have hrun : index_local exEnv exDbNoOwner =
      Except.error IndexingError.rowNotFound := by rfl
  refine ⟨hrun, ?_⟩
  intro docs h
  rw [hrun] at h
  exact absurd h (by simp)

/-- C5 amended: only rows the mod stream fails to decode are skipped
individually (the run continues exactly as if those rows were absent);
enrichment failures — a missing status row or an unresolvable owning
account — abort the whole run, as witnessed by the counterexample. -/
theorem indexLocalGo_skips_undecodable_rows (env : SearchEnv) (db : Db) :
    ∀ rows, indexLocalGo env db rows =
      indexLocalGo env db ((rows.filterMap Except.toOption).map Except.ok)
  | [] => rfl
  | Except.error e :: rest => by
    simp only [indexLocalGo, List.filterMap_cons, Except.toOption]
    exact indexLocalGo_skips_undecodable_rows env db rest
  | Except.ok m :: rest => by
    have ih := indexLocalGo_skips_undecodable_rows env db rest
    simp only [indexLocalGo, List.filterMap_cons, Except.toOption, List.map_cons]
    cases fetchStatusName db m.status with
    | none => rfl
    | some name =>
      by_cases hs : (ModStatus.from_str name).is_searchable = true
      · simp only [hs, if_true]
        cases fetchOwner db m.team_id with
        | none => rfl
        | some u => rw [ih]
      · simp only [Bool.not_eq_true] at hs
        simp only [hs, if_false]
        exact ih

/-! ## C8 -/

/-- C8: every document built by the single-entity path carries the id
`<host-tag>-<entity-id>` of the requested entity, every document a bulk
run returns carries the id `<host-tag>-<entity-id>` of one of the store's
entities, the mapper output always carries the id of its input row, and
the delete path keys on exactly the same string, so upsert and delete for
the same entity address the same index key. -/
theorem upsert_and_delete_share_key (env : SearchEnv) (db : Db) (id : Nat)
    (d : UploadSearchMod) (docs : List UploadSearchMod) :
    (query_one env db id = Except.ok d → d.mod_id = deleteDocId id) ∧
    (index_local env db = Except.ok docs →
      ∀ x ∈ docs, ∃ m, m ∈ db.mods ∧ x.mod_id = deleteDocId m.id) ∧
    (∀ (m : ModRow) (cats : List String) (u : UserRow),
      (mkDoc env m cats u).mod_id = deleteDocId m.id) ∧
    deleteDocId id = hostTag ++ "-" ++ showId id := by
  refine ⟨?_, ?_, fun m cats u => rfl, rfl⟩
  · intro h
    unfold query_one at h
    split at h
    · exact absurd h (by simp)
    · rename_i m hfind
      split at h
      · exact absurd h (by simp)
      · rename_i u hu
        injection h with h
        have hid : m.id = id := by simpa using List.find?_some hfind
        rw [← h]
        show deleteDocId m.id = deleteDocId id
        rw [hid]
  · intro h x hx
    obtain ⟨m, hm, hid⟩ := indexLocalGo_ids env db _ docs h x hx
    refine ⟨m, ?_, hid⟩
    obtain ⟨y, hy, hyx⟩ := List.mem_map.mp hm
    have : y = m := by injection hyx
    rw [← this]
    exact hy

/-- C8 witness: on the concrete store, the document `query_one` builds
for entity 1 carries exactly the key the delete path would delete. -/
theorem upsert_and_delete_share_key_witness :
    query_one exEnv exDb 1 = Except.ok exDoc1 ∧
    exDoc1.mod_id = deleteDocId 1 := by
  refine ⟨by decide, ?_⟩
  exact (upsert_and_delete_share_key exEnv exDb 1 exDoc1 []).1 (by decide)

/-! ## C9 -/

/-- C9: for an entity that is searchable and enrichable (and a snapshot
over which the bulk run can complete), the document the single-entity
path returns is one of the documents the bulk path produces — the very
same record, so every field coincides between the two paths. -/
theorem query_one_agrees_with_bulk (env : SearchEnv) (db : Db) (id : Nat)
    (m : ModRow)
    (hfind : db.mods.find? (fun r => r.id == id) = some m)
    (hsearch : searchableRow db m = true)
    (hstat : ∀ x ∈ db.mods, (fetchStatusName db x.status).isSome)
    (hown : ∀ x ∈ db.mods, searchableRow db x = true →
      (fetchOwner db x.team_id).isSome) :
    ∃ d docs, query_one env db id = Except.ok d ∧
      index_local env db = Except.ok docs ∧ d ∈ docs := by
  obtain ⟨docs, hrun, _, _, hall⟩ :=
    indexLocalGo_resolvable env db db.mods hstat hown
  have hm : m ∈ db.mods := List.mem_of_find?_eq_some hfind
  obtain ⟨u, hu⟩ := Option.isSome_iff_exists.mp (hown m hm hsearch)
  refine ⟨mkDoc env m (fetchCategories db m.id) u, docs, ?_, hrun,
    hall m hm hsearch u hu⟩
  simp [query_one, hfind, hu]

/-- C9 witness: on the concrete store the two paths produce the same
document for entity 1. -/
theorem query_one_agrees_with_bulk_witness :
    exDb.mods.find? (fun r => r.id == 1) = some exMod1 ∧
    searchableRow exDb exMod1 = true ∧
    ∃ d docs, query_one exEnv exDb 1 = Except.ok d ∧
      index_local exEnv exDb = Except.ok docs ∧ d ∈ docs := by
  refine ⟨by decide, by decide, ?_⟩
  exact query_one_agrees_with_bulk exEnv exDb 1 exMod1 (by decide) (by decide)
    (by decide) (by decide)

/-! ## C3 -/

/-- C3: across any sequence of `add` calls the Creation Queue holds at
most one pending entry per document id, and a later `add` with the same
id replaces the earlier payload: after two adds with the same id the
pending entries for that id are exactly the second payload. -/
theorem creation_queue_last_write_wins :
    (∀ ds : List UploadSearchMod,
      ((CreationQueue.empty.addAll ds).entries.map
        (fun d => d.mod_id)).Nodup) ∧
    (∀ (q : CreationQueue) (d1 d2 : UploadSearchMod),
      d1.mod_id = d2.mod_id →
      ((q.add d1).add d2).pendingFor d2.mod_id = [d2]) := by
  constructor
  · have hstep : ∀ (q : CreationQueue) (d : UploadSearchMod),
        (q.entries.map (fun x => x.mod_id)).Nodup →
        ((q.add d).entries.map (fun x => x.mod_id)).Nodup := by
      intro q d hq
      unfold CreationQueue.add
      simp only [List.map_cons, List.nodup_cons]
      constructor
      · intro hmem
        obtain ⟨x, hx, hxid⟩ := List.mem_map.mp hmem
        have := List.of_mem_filter hx
        rw [hxid] at this
        simp at this
      · have : (q.entries.filter (fun e => e.mod_id != d.mod_id)).Sublist
            q.entries := List.filter_sublist _
        exact (this.map (fun x => x.mod_id)).nodup hq
    have hfold : ∀ (ds : List UploadSearchMod) (q : CreationQueue),
        (q.entries.map (fun x => x.mod_id)).Nodup →
        ((q.addAll ds).entries.map (fun x => x.mod_id)).Nodup := by
      intro ds
      induction ds with
      | nil => intro q hq; exact hq
      | cons d rest ih =>
        intro q hq
        exact ih (q.add d) (hstep q d hq)
    intro ds
    exact hfold ds CreationQueue.empty (by simp [CreationQueue.empty])
  · intro q d1 d2 hid
    unfold CreationQueue.add CreationQueue.pendingFor
    simp only
    rw [List.filter_cons_of_pos (by simp)]
    congr 1
    rw [List.filter_cons_of_neg (by simp [hid])]
    rw [List.filter_filter]
    have : ∀ e : UploadSearchMod,
        ((e.mod_id == d2.mod_id) && (e.mod_id != d2.mod_id)) = false := by
      intro e
      cases hb : e.mod_id == d2.mod_id
      · simp
      · simp [bne, hb]
    simp only [this]
    exact List.filter_false _

/-- C3 witness: two concrete adds with the same document id leave exactly
one pending entry, the second payload. -/
theorem creation_queue_last_write_wins_witness :
    exQDoc1.mod_id = exQDoc2.mod_id ∧
    ((CreationQueue.empty.add exQDoc1).add exQDoc2).pendingFor
      exQDoc2.mod_id = [exQDoc2] := by
  refine ⟨by decide, ?_⟩
  exact creation_queue_last_write_wins.2 CreationQueue.empty exQDoc1 exQDoc2
    (by decide)

/-! ## C6 -/

/-- C6: for any task registered through `Scheduler::run`, along every
reachable execution of the `for_each_concurrent(2, task)` combinator at
most 2 invocations are in flight; a tick still fires while one run
overruns (one in flight), and no transition from a saturated state can
create a third concurrent run. -/
theorem scheduler_concurrency_bound :
    (∀ s, SchedulerReachable schedulerConcurrencyLimit s →
      s.inFlight ≤ 2) ∧
    SchedulerStep schedulerConcurrencyLimit ⟨1⟩ ⟨2⟩ ∧
    (∀ s', SchedulerStep schedulerConcurrencyLimit ⟨2⟩ s' →
      s'.inFlight ≤ 2) := by
  refine ⟨?_, ?_, ?_⟩
  · intro s h
    induction h with
    | init => simp
    | step hr hs ih =>
      cases hs with
      | tick hlt => exact hlt
      | complete hpos => exact le_trans (Nat.sub_le _ _) ih
  · exact SchedulerStep.tick ⟨1⟩ (by simp [schedulerConcurrencyLimit])
  · intro s' h
    cases h with
    | tick hlt => exact absurd (show (2:Nat) < 2 from hlt) (by omega)
    | complete hpos => exact (show (2:Nat) - 1 ≤ 2 by omega)

/-- C6 witness: the bound applied to the initial state. -/
theorem scheduler_concurrency_bound_witness :
    SchedulerReachable schedulerConcurrencyLimit ⟨0⟩ ∧
    (⟨0⟩ : SchedulerState).inFlight ≤ 2 :=
  ⟨SchedulerReachable.init,
    scheduler_concurrency_bound.1 ⟨0⟩ SchedulerReachable.init⟩

/-! ## Handler-monad reasoning -/

theorem M.bind_run {α β : Type} (x : M α) (f : α → M β) :
    x >>= f = M.bind x f := rfl

theorem M.bind_ok {α β : Type} {x : M α} {f : α → M β} {s s2 : EditSt}
    {b : β} (h : (x >>= f) s = (Except.ok b, s2)) :
    ∃ a s1, x s = (Except.ok a, s1) ∧ f a s1 = (Except.ok b, s2) := by
  have h' : M.bind x f s = (Except.ok b, s2) := h
  unfold M.bind at h'
  cases hx : x s with
  | mk rx s1 =>
    rw [hx] at h'
    cases rx with
    | ok a => exact ⟨a, s1, rfl, h'⟩
    | error e =>
      injection h' with he hs
      exact absurd he (by simp)

theorem M.bind_inv {α β : Type} {x : M α} {f : α → M β} {s : EditSt}
    {r : Except ApiError β} {s2 : EditSt} (h : (x >>= f) s = (r, s2)) :
    (∃ a s1, x s = (Except.ok a, s1) ∧ f a s1 = (r, s2)) ∨
    (∃ e, x s = (Except.error e, s2) ∧ r = Except.error e) := by
  have h' : M.bind x f s = (r, s2) := h
  unfold M.bind at h'
  cases hx : x s with
  | mk rx s1 =>
    rw [hx] at h'
    cases rx with
    | ok a => exact Or.inl ⟨a, s1, rfl, h'⟩
    | error e =>
      injection h' with he hs
      exact Or.inr ⟨e, by rw [hs], he.symm⟩

theorem extCall_snd (e : ApiError) (s : EditSt) :
    (extCall e s).2 = { s with calls := s.calls + 1 } := by
  unfold extCall
  split <;> rfl

theorem extCall_run {e : ApiError} {s : EditSt} {r : Except ApiError Unit}
    {s' : EditSt} (h : extCall e s = (r, s')) :
    s' = { s with calls := s.calls + 1 } := by
  have := extCall_snd e s
  rw [h] at this
  exact this

theorem getSt_ok {s : EditSt} {a : EditSt} {s' : EditSt}
    (h : getSt s = (Except.ok a, s')) : a = s ∧ s' = s := by
  unfold getSt at h
  injection h with h1 h2
  exact ⟨(Except.ok.inj h1).symm, h2.symm⟩

theorem getSt_run {s : EditSt} {r : Except ApiError EditSt} {s' : EditSt}
    (h : getSt s = (r, s')) : s' = s := by
  unfold getSt at h
  injection h with _ h2
  exact h2.symm

theorem setDb_run {d : Db} {s : EditSt} {r : Except ApiError Unit}
    {s' : EditSt} (h : setDb d s = (r, s')) : s' = { s with db := d } := by
  unfold setDb at h
  injection h with _ h2
  exact h2.symm

theorem emit_run {ef : Effect} {s : EditSt} {r : Except ApiError Unit}
    {s' : EditSt} (h : emit ef s = (r, s')) :
    s' = { s with trace := s.trace ++ [ef] } := by
  unfold emit at h
  injection h with _ h2
  exact h2.symm

theorem pure_run {α : Type} {x : α} {s : EditSt} {r : Except ApiError α}
    {s' : EditSt} (h : M.pure x s = (r, s')) : r = Except.ok x ∧ s' = s := by
  unfold M.pure at h
  injection h with h1 h2
  exact ⟨h1.symm, h2.symm⟩

theorem throw_run {α : Type} {e : ApiError} {s : EditSt}
    {r : Except ApiError α} {s' : EditSt} (h : M.throw e s = (r, s')) :
    r = Except.error e ∧ s' = s := by
  unfold M.throw at h
  injection h with h1 h2
  exact ⟨h1.symm, h2.symm⟩

theorem throw_ne_ok {α : Type} {e : ApiError} {s : EditSt} {a : α}
    {s' : EditSt} (h : M.throw e s = (Except.ok a, s')) : False := by
  have := (throw_run h).1
  exact absurd this (by simp)

/-- A computation that never touches the index-effect trace. -/
def TraceInv {α : Type} (x : M α) : Prop :=
  ∀ s, ((x s).2).trace = s.trace

theorem traceInv_apply {α : Type} {x : M α} (hx : TraceInv x) {s : EditSt}
    {r : Except ApiError α} {s' : EditSt} (h : x s = (r, s')) :
    s'.trace = s.trace := by
  have := hx s
  rw [h] at this
  exact this

theorem TraceInv.bind {α β : Type} {x : M α} {f : α → M β}
    (hx : TraceInv x) (hf : ∀ a, TraceInv (f a)) : TraceInv (x >>= f) := by
  intro s
  show ((M.bind x f s).2).trace = s.trace
  unfold M.bind
  cases hx2 : x s with
  | mk rx s1 =>
    cases rx with
    | ok a => exact (hf a s1).trans (traceInv_apply hx hx2)
    | error e => exact traceInv_apply hx hx2

theorem TraceInv.ite {α : Type} (c : Prop) [Decidable c] {x y : M α}
    (hx : TraceInv x) (hy : TraceInv y) :
    TraceInv (if c then x else y) := by
  by_cases h : c
  · rwa [if_pos h]
  · rwa [if_neg h]

theorem traceInv_pure {α : Type} (a : α) : TraceInv (M.pure a) :=
  fun _ => rfl

theorem traceInv_throw {α : Type} (e : ApiError) :
    TraceInv (M.throw e : M α) := fun _ => rfl

theorem traceInv_extCall (e : ApiError) : TraceInv (extCall e) := by
  intro s
  rw [extCall_snd]

theorem traceInv_getSt : TraceInv getSt := fun _ => rfl

theorem traceInv_setDb (d : Db) : TraceInv (setDb d) := fun _ => rfl

theorem traceInv_titleBranch (req : EditMod) (perms : Permissions)
    (modId : Nat) : TraceInv (titleBranch req perms modId) := by
  unfold titleBranch
  cases req.title with
  | none => exact traceInv_pure _
  | some t =>
    apply TraceInv.ite _ (traceInv_throw _)
    apply TraceInv.ite _ (traceInv_throw _)
    apply TraceInv.bind (traceInv_extCall _)
    intro _
    apply TraceInv.bind traceInv_getSt
    intro s
    exact traceInv_setDb _

theorem traceInv_descriptionBranch (req : EditMod) (perms : Permissions)
    (modId : Nat) : TraceInv (descriptionBranch req perms modId) := by
  unfold descriptionBranch
  cases req.description with
  | none => exact traceInv_pure _
  | some t =>
    apply TraceInv.ite _ (traceInv_throw _)
    apply TraceInv.ite _ (traceInv_throw _)
    apply TraceInv.bind (traceInv_extCall _)
    intro _
    apply TraceInv.bind traceInv_getSt
    intro s
    exact traceInv_setDb _

theorem traceInv_catLoop (modId : Nat) :
    ∀ cats, TraceInv (catLoop modId cats)
  | [] => traceInv_pure _
  | c :: rest => by
    unfold catLoop
    apply TraceInv.bind (traceInv_extCall _)
    intro _
    apply TraceInv.bind traceInv_getSt
    intro s
    cases categoryGetId s.db c with
    | none => exact traceInv_throw _
    | some cid =>
      apply TraceInv.bind (traceInv_extCall _)
      intro _
      apply TraceInv.bind traceInv_getSt
      intro s2
      apply TraceInv.bind (traceInv_setDb _)
      intro _
      exact traceInv_catLoop modId rest

theorem traceInv_categoriesBranch (req : EditMod) (perms : Permissions)
    (modId : Nat) : TraceInv (categoriesBranch req perms modId) := by
  unfold categoriesBranch
  cases req.categories with
  | none => exact traceInv_pure _
  | some cats =>
    apply TraceInv.ite _ (traceInv_throw _)
    apply TraceInv.ite _ (traceInv_throw _)
    apply TraceInv.bind (traceInv_extCall _)
    intro _
    apply TraceInv.bind traceInv_getSt
    intro s
    apply TraceInv.bind (traceInv_setDb _)
    intro _
    exact traceInv_catLoop modId cats

theorem traceInv_urlBranch (field : Option (Option String))
    (perms : Permissions) (modId : Nat)
    (write : Option String → ModRow → ModRow) :
    TraceInv (urlBranch field perms modId write) := by
  unfold urlBranch
  cases field with
  | none => exact traceInv_pure _
  | some url =>
    apply TraceInv.ite _ (traceInv_throw _)
    apply TraceInv.ite _ (traceInv_throw _)
    apply TraceInv.bind (traceInv_extCall _)
    intro _
    apply TraceInv.bind traceInv_getSt
    intro s
    exact traceInv_setDb _

theorem traceInv_slugBranch (req : EditMod) (perms : Permissions)
    (modId : Nat) : TraceInv (slugBranch req perms modId) := by
  unfold slugBranch
  cases req.slug with
  | none => exact traceInv_pure _
  | some slug =>
    apply TraceInv.ite _ (traceInv_throw _)
    apply TraceInv.bind
    · cases slug with
      | none => exact traceInv_pure _
      | some sl =>
        apply TraceInv.ite _ (traceInv_throw _)
        cases slugParseModId sl with
        | none => exact traceInv_pure _
        | some otherId =>
          apply TraceInv.bind (traceInv_extCall _)
          intro _
          apply TraceInv.bind traceInv_getSt
          intro s
          exact TraceInv.ite _ (traceInv_throw _) (traceInv_pure _)
    · intro _
      apply TraceInv.bind (traceInv_extCall _)
      intro _
      apply TraceInv.bind traceInv_getSt
      intro s2
      exact traceInv_setDb _

theorem traceInv_donationLoop (modId : Nat) :
    ∀ ds, TraceInv (donationLoop modId ds)
  | [] => traceInv_pure _
  | d :: rest => by
    unfold donationLoop
    apply TraceInv.bind (traceInv_extCall _)
    intro _
    apply TraceInv.bind traceInv_getSt
    intro s
    cases donationPlatformGetId s.db d.1 with
    | none => exact traceInv_throw _
    | some pid =>
      apply TraceInv.bind (traceInv_extCall _)
      intro _
      apply TraceInv.bind traceInv_getSt
      intro s2
      apply TraceInv.bind (traceInv_setDb _)
      intro _
      exact traceInv_donationLoop modId rest

theorem traceInv_donationsBranch (req : EditMod) (perms : Permissions)
    (modId : Nat) : TraceInv (donationsBranch req perms modId) := by
  unfold donationsBranch
  cases req.donation_urls with
  | none => exact traceInv_pure _
  | some ds =>
    apply TraceInv.ite _ (traceInv_throw _)
    apply TraceInv.bind (traceInv_extCall _)
    intro _
    apply TraceInv.bind traceInv_getSt
    intro s
    apply TraceInv.bind (traceInv_setDb _)
    intro _
    exact traceInv_donationLoop modId ds

theorem traceInv_bodyBranch (req : EditMod) (perms : Permissions)
    (modId : Nat) : TraceInv (bodyBranch req perms modId) := by
  unfold bodyBranch
  cases req.body with
  | none => exact traceInv_pure _
  | some b =>
    apply TraceInv.ite _ (traceInv_throw _)
    apply TraceInv.ite _ (traceInv_throw _)
    apply TraceInv.bind (traceInv_extCall _)
    intro _
    apply TraceInv.bind traceInv_getSt
    intro s
    exact traceInv_setDb _

theorem traceInv_isNsfwBranch (req : EditMod) (perms : Permissions)
    (modId : Nat) : TraceInv (isNsfwBranch req perms modId) := by
  unfold isNsfwBranch
  cases req.is_nsfw with
  | none => exact traceInv_pure _
  | some b =>
    apply TraceInv.ite _ (traceInv_throw _)
    apply TraceInv.bind (traceInv_extCall _)
    intro _
    apply TraceInv.bind traceInv_getSt
    intro s
    exact traceInv_setDb _

theorem traceInv_statusBranch_same (env : SearchEnv) (user : AuthUser)
    (req : EditMod) (perms : Permissions) (modId : Nat)
    (oldSt : ModStatus)
    (hsame : ∀ ns, req.status = some ns →
      ns.is_searchable = oldSt.is_searchable) :
    TraceInv (statusBranch env user req perms modId oldSt) := by
  unfold statusBranch
  cases hreq : req.status with
  | none => exact traceInv_pure _
  | some ns =>
    have hs := hsame ns hreq
    apply TraceInv.ite _ (traceInv_throw _)
    apply TraceInv.ite _ (traceInv_throw _)
    apply TraceInv.bind (traceInv_extCall _)
    intro _
    apply TraceInv.bind traceInv_getSt
    intro s
    cases statusIdGetId s.db ns with
    | none => exact traceInv_throw _
    | some sid =>
      apply TraceInv.bind (traceInv_extCall _)
      intro _
      apply TraceInv.bind traceInv_getSt
      intro s2
      apply TraceInv.bind (traceInv_setDb _)
      intro _
      rw [hs]
      cases hb : oldSt.is_searchable
      · exact traceInv_pure _
      · exact traceInv_pure _

/-! ## Shape of the status branch's index effects -/

/-- A successful run of the delete loop appends exactly one delete-by-id
effect per engine collection, all keyed by the mod's delete key. -/
theorem deleteLoop_shape (modId : Nat) :
    ∀ (cols : List String) (s : EditSt) (u : Unit) (s' : EditSt),
    deleteLoop modId cols s = (Except.ok u, s') →
    s'.trace = s.trace ++
      cols.map (fun c => Effect.indexDelete c (deleteDocId modId))
  | [], s, u, s', h => by
    have hs := (pure_run h).2
    rw [hs]
    simp
  | c :: rest, s, u, s', h => by
    unfold deleteLoop at h
    obtain ⟨a1, s1, h1, h⟩ := M.bind_ok h
    obtain ⟨a2, s2, h2, h⟩ := M.bind_ok h
    have hs1 := extCall_run h1
    have hs2 := emit_run h2
    have hrec := deleteLoop_shape modId rest s2 u s' h
    rw [hrec, hs2, hs1]
    simp

/-- A successful run of the enqueue step appends exactly one queue add,
whose payload is a `query_one` result on the transaction state. -/
theorem queryOneM_shape {env : SearchEnv} {modId : Nat} {s : EditSt}
    {u : Unit} {s' : EditSt}
    (h : queryOneM env modId s = (Except.ok u, s')) :
    ∃ d dbq, s'.trace = s.trace ++ [Effect.queueAdd d] ∧
      query_one env dbq modId = Except.ok d := by
  unfold queryOneM at h
  obtain ⟨a1, s1, h1, h⟩ := M.bind_ok h
  obtain ⟨a2, s2, h2, h⟩ := M.bind_ok h
  obtain ⟨ha2, hs2⟩ := getSt_ok h2
  cases hq : query_one env a2.db modId with
  | error e =>
    rw [hq] at h
    exact (throw_ne_ok h).elim
  | ok d =>
    rw [hq] at h
    have hs' := emit_run h
    refine ⟨d, a2.db, ?_, hq⟩
    rw [hs', hs2, extCall_run h1]

/-- When the edited entity leaves the searchable subset, a successful
status branch appends exactly the synchronous delete-by-id effects (one
per listed collection) and nothing else. -/
theorem statusBranch_delete_shape {env : SearchEnv} {user : AuthUser}
    {req : EditMod} {perms : Permissions} {modId : Nat}
    {oldSt ns : ModStatus} {s : EditSt} {u : Unit} {s' : EditSt}
    (hreq : req.status = some ns)
    (hold : oldSt.is_searchable = true)
    (hnew : ns.is_searchable = false)
    (h : statusBranch env user req perms modId oldSt s =
      (Except.ok u, s')) :
    s'.trace = s.trace ++
      env.collections.map (fun c => Effect.indexDelete c (deleteDocId modId)) := by
  unfold statusBranch at h
  rw [hreq] at h
  simp only [] at h
  by_cases hc1 : (!perms.edit_details) = true
  · rw [if_pos hc1] at h
    exact (throw_ne_ok h).elim
  · rw [if_neg hc1] at h
    by_cases hc2 : ((ns == ModStatus.rejected || ns == ModStatus.approved)
        && !user.role.is_mod) = true
    · rw [if_pos hc2] at h
      exact (throw_ne_ok h).elim
    · rw [if_neg hc2] at h
      obtain ⟨a1, s1, h1, h⟩ := M.bind_ok h
      obtain ⟨a2, s2, h2, h⟩ := M.bind_ok h
      obtain ⟨ha2, hs2⟩ := getSt_ok h2
      cases hsid : statusIdGetId a2.db ns with
      | none =>
        rw [hsid] at h
        exact (throw_ne_ok h).elim
      | some sid =>
        rw [hsid] at h
        obtain ⟨a3, s3, h3, h⟩ := M.bind_ok h
        obtain ⟨a4, s4, h4, h⟩ := M.bind_ok h
        obtain ⟨ha4, hs4⟩ := getSt_ok h4
        obtain ⟨a5, s5, h5, h⟩ := M.bind_ok h
        have hcond : (oldSt.is_searchable && !ns.is_searchable) = true := by
          rw [hold, hnew]
          rfl
        rw [if_pos hcond] at h
        unfold deleteFromIndexM at h
        obtain ⟨a6, s6, h6, h⟩ := M.bind_ok h
        have hshape := deleteLoop_shape modId env.collections s6 u s' h
        rw [hshape, extCall_run h6, setDb_run h5, hs4, extCall_run h3, hs2,
          extCall_run h1]

/-- When the edited entity enters the searchable subset, a successful
status branch appends exactly one queue add whose payload was built by
`query_one`, and no delete effect. -/
theorem statusBranch_add_shape {env : SearchEnv} {user : AuthUser}
    {req : EditMod} {perms : Permissions} {modId : Nat}
    {oldSt ns : ModStatus} {s : EditSt} {u : Unit} {s' : EditSt}
    (hreq : req.status = some ns)
    (hold : oldSt.is_searchable = false)
    (hnew : ns.is_searchable = true)
    (h : statusBranch env user req perms modId oldSt s =
      (Except.ok u, s')) :
    ∃ d dbq, s'.trace = s.trace ++ [Effect.queueAdd d] ∧
      query_one env dbq modId = Except.ok d := by
  unfold statusBranch at h
  rw [hreq] at h
  simp only [] at h
  by_cases hc1 : (!perms.edit_details) = true
  · rw [if_pos hc1] at h
    exact (throw_ne_ok h).elim
  · rw [if_neg hc1] at h
    by_cases hc2 : ((ns == ModStatus.rejected || ns == ModStatus.approved)
        && !user.role.is_mod) = true
    · rw [if_pos hc2] at h
      exact (throw_ne_ok h).elim
    · rw [if_neg hc2] at h
      obtain ⟨a1, s1, h1, h⟩ := M.bind_ok h
      obtain ⟨a2, s2, h2, h⟩ := M.bind_ok h
      obtain ⟨ha2, hs2⟩ := getSt_ok h2
      cases hsid : statusIdGetId a2.db ns with
      | none =>
        rw [hsid] at h
        exact (throw_ne_ok h).elim
      | some sid =>
        rw [hsid] at h
        obtain ⟨a3, s3, h3, h⟩ := M.bind_ok h
        obtain ⟨a4, s4, h4, h⟩ := M.bind_ok h
        obtain ⟨ha4, hs4⟩ := getSt_ok h4
        obtain ⟨a5, s5, h5, h⟩ := M.bind_ok h
        have hcond1 : (oldSt.is_searchable && !ns.is_searchable) = false := by
          rw [hold, hnew]
          rfl
        rw [if_neg (by rw [hcond1]; simp)] at h
        have hcond2 : (!oldSt.is_searchable && ns.is_searchable) = true := by
          rw [hold, hnew]
          rfl
        rw [if_pos hcond2] at h
        obtain ⟨d, dbq, htr, hq⟩ := queryOneM_shape h
        refine ⟨d, dbq, ?_, hq⟩
        rw [htr, setDb_run h5, hs4, extCall_run h3, hs2, extCall_run h1]

/-! ## Whole-handler lemmas -/

/-- When the requested status change does not change searchability (or no
status is in the request), the entire edit body leaves the index-effect
trace untouched. -/
theorem editBody_traceInv (env : SearchEnv) (user : AuthUser) (modId : Nat)
    (req : EditMod) (oldSt : ModStatus) (perms : Permissions)
    (hsame : ∀ ns, req.status = some ns →
      ns.is_searchable = oldSt.is_searchable) :
    TraceInv (editBody env user modId req oldSt perms) := by
  unfold editBody
  apply TraceInv.bind (traceInv_extCall _)
  intro _
  apply TraceInv.bind (traceInv_titleBranch _ _ _)
  intro _
  apply TraceInv.bind (traceInv_descriptionBranch _ _ _)
  intro _
  apply TraceInv.bind (traceInv_statusBranch_same _ _ _ _ _ _ hsame)
  intro _
  apply TraceInv.bind (traceInv_categoriesBranch _ _ _)
  intro _
  apply TraceInv.bind (traceInv_urlBranch _ _ _ _)
  intro _
  apply TraceInv.bind (traceInv_urlBranch _ _ _ _)
  intro _
  apply TraceInv.bind (traceInv_urlBranch _ _ _ _)
  intro _
  apply TraceInv.bind (traceInv_urlBranch _ _ _ _)
  intro _
  apply TraceInv.bind (traceInv_slugBranch _ _ _)
  intro _
  apply TraceInv.bind (traceInv_donationsBranch _ _ _)
  intro _
  apply TraceInv.bind (traceInv_bodyBranch _ _ _)
  intro _
  apply TraceInv.bind (traceInv_isNsfwBranch _ _ _)
  intro _
  apply TraceInv.bind (traceInv_extCall _)
  intro _
  exact traceInv_pure _

/-- A successful edit body runs the status branch once; the trace before
it is the request's initial trace and the trace after it is the final
trace (no other step touches the trace). -/
theorem editBody_ok_shape {env : SearchEnv} {user : AuthUser} {modId : Nat}
    {req : EditMod} {oldSt : ModStatus} {perms : Permissions} {s : EditSt}
    {n : Nat} {s' : EditSt}
    (h : editBody env user modId req oldSt perms s = (Except.ok n, s')) :
    ∃ sb sb', statusBranch env user req perms modId oldSt sb =
        (Except.ok (), sb') ∧
      sb.trace = s.trace ∧ s'.trace = sb'.trace := by
  unfold editBody at h
  obtain ⟨a1, s1, h1, h⟩ := M.bind_ok h
  obtain ⟨a2, s2, h2, h⟩ := M.bind_ok h
  obtain ⟨a3, s3, h3, h⟩ := M.bind_ok h
  obtain ⟨a4, s4, h4, h⟩ := M.bind_ok h
  obtain ⟨a5, s5, h5, h⟩ := M.bind_ok h
  obtain ⟨a6, s6, h6, h⟩ := M.bind_ok h
  obtain ⟨a7, s7, h7, h⟩ := M.bind_ok h
  obtain ⟨a8, s8, h8, h⟩ := M.bind_ok h
  obtain ⟨a9, s9, h9, h⟩ := M.bind_ok h
  obtain ⟨a10, s10, h10, h⟩ := M.bind_ok h
  obtain ⟨a11, s11, h11, h⟩ := M.bind_ok h
  obtain ⟨a12, s12, h12, h⟩ := M.bind_ok h
  obtain ⟨a13, s13, h13, h⟩ := M.bind_ok h
  obtain ⟨a14, s14, h14, h⟩ := M.bind_ok h
  have hp := (pure_run h).2
  refine ⟨s3, s4, h4, ?_, ?_⟩
  · calc s3.trace
        = s2.trace := traceInv_apply (traceInv_descriptionBranch _ _ _) h3
      _ = s1.trace := traceInv_apply (traceInv_titleBranch _ _ _) h2
      _ = s.trace := by rw [extCall_run h1]
  · calc s'.trace
        = s14.trace := by rw [hp]
      _ = s13.trace := by rw [extCall_run h14]
      _ = s12.trace := traceInv_apply (traceInv_isNsfwBranch _ _ _) h13
      _ = s11.trace := traceInv_apply (traceInv_bodyBranch _ _ _) h12
      _ = s10.trace := traceInv_apply (traceInv_donationsBranch _ _ _) h11
      _ = s9.trace := traceInv_apply (traceInv_slugBranch _ _ _) h10
      _ = s8.trace := traceInv_apply (traceInv_urlBranch _ _ _ _) h9
      _ = s7.trace := traceInv_apply (traceInv_urlBranch _ _ _ _) h8
      _ = s6.trace := traceInv_apply (traceInv_urlBranch _ _ _ _) h7
      _ = s5.trace := traceInv_apply (traceInv_urlBranch _ _ _ _) h6
      _ = s4.trace := traceInv_apply (traceInv_categoriesBranch _ _ _) h5

/-- A successful `mod_edit` run (HTTP 200) from a quiescent state runs
the status branch once on an empty trace, and the request's final trace
is the status branch's trace. -/
theorem mod_edit_ok_shape {env : SearchEnv} {user : AuthUser} {modId : Nat}
    {req : EditMod} {db : Db} {oracle : Nat → Bool} {m : ModRow}
    {oldSt : ModStatus} {s' : EditSt}
    (hfull : getFull db modId = some (m, oldSt))
    (h : mod_edit env user modId req ⟨db, [], 0, oracle⟩ =
      (Except.ok 200, s')) :
    ∃ perms sb sb',
      statusBranch env user req perms modId oldSt sb =
        (Except.ok (), sb') ∧
      sb.trace = [] ∧ s'.trace = sb'.trace := by
  unfold mod_edit at h
  obtain ⟨a1, s1, h1, h⟩ := M.bind_ok h
  obtain ⟨a2, s2, h2, h⟩ := M.bind_ok h
  obtain ⟨a3, s3, h3, h⟩ := M.bind_ok h
  obtain ⟨ha3, hs3⟩ := getSt_ok h3
  have hdb : a3.db = db := by
    rw [ha3, extCall_run h2, extCall_run h1]
  rw [hdb, hfull] at h
  simp only [] at h
  obtain ⟨a4, s4, h4, h⟩ := M.bind_ok h
  obtain ⟨a5, s5, h5, h⟩ := M.bind_ok h
  obtain ⟨ha5, hs5⟩ := getSt_ok h5
  cases hperm : permsFor (getFromUserId a5.db m.team_id user.id) user with
  | none =>
    rw [hperm] at h
    exact (throw_ne_ok h).elim
  | some perms =>
    rw [hperm] at h
    obtain ⟨sb, sb', hsb, htr1, htr2⟩ := editBody_ok_shape h
    refine ⟨perms, sb, sb', hsb, ?_, htr2⟩
    rw [htr1, hs5, extCall_run h4, hs3, extCall_run h2, extCall_run h1]

/-- Whenever the request's status change (if any) does not change
searchability on the state the handler reads, `mod_edit` leaves the
index-effect trace untouched, on success and on every error return
alike. -/
theorem mod_edit_trace_pres {env : SearchEnv} {user : AuthUser}
    {modId : Nat} {req : EditMod} {s : EditSt} {r : Except ApiError Nat}
    {s' : EditSt} (h : mod_edit env user modId req s = (r, s'))
    (hsame : ∀ mi oldSt, getFull s.db modId = some (mi, oldSt) →
      ∀ ns, req.status = some ns → ns.is_searchable = oldSt.is_searchable) :
    s'.trace = s.trace := by
  unfold mod_edit at h
  rcases M.bind_inv h with ⟨a1, s1, h1, h⟩ | ⟨e, h1, hr⟩
  · rcases M.bind_inv h with ⟨a2, s2, h2, h⟩ | ⟨e, h2, hr⟩
    · rcases M.bind_inv h with ⟨a3, s3, h3, h⟩ | ⟨e, h3, hr⟩
      · obtain ⟨ha3, hs3⟩ := getSt_ok h3
        have hdb : a3.db = s.db := by
          rw [ha3, extCall_run h2, extCall_run h1]
        cases hgf : getFull a3.db modId with
        | none =>
          rw [hgf] at h
          have := (pure_run h).2
          rw [this, hs3, extCall_run h2, extCall_run h1]
        | some pair =>
          rcases pair with ⟨mi, oldSt⟩
          rw [hgf] at h
          simp only [] at h
          rw [hdb] at hgf
          rcases M.bind_inv h with ⟨a4, s4, h4, h⟩ | ⟨e, h4, hr⟩
          · rcases M.bind_inv h with ⟨a5, s5, h5, h⟩ | ⟨e, h5, hr⟩
            · obtain ⟨ha5, hs5⟩ := getSt_ok h5
              cases hperm :
                  permsFor (getFromUserId a5.db mi.team_id user.id) user with
              | none =>
                rw [hperm] at h
                have := (throw_run h).2
                rw [this, hs5, extCall_run h4, hs3, extCall_run h2,
                  extCall_run h1]
              | some perms =>
                rw [hperm] at h
                have hinv := editBody_traceInv env user modId req oldSt perms
                  (hsame mi oldSt hgf)
                calc s'.trace
                    = s5.trace := traceInv_apply hinv h
                  _ = s.trace := by
                      rw [hs5, extCall_run h4, hs3, extCall_run h2,
                        extCall_run h1]
            · rw [getSt_run h5, extCall_run h4, hs3, extCall_run h2,
                extCall_run h1]
          · rw [extCall_run h4, hs3, extCall_run h2, extCall_run h1]
      · rw [getSt_run h3, extCall_run h2, extCall_run h1]
    · rw [extCall_run h2, extCall_run h1]
  · rw [extCall_run h1]

/-- The membership/permission guard of `mod_delete` never touches the
trace. -/
theorem traceInv_deleteGuard (user : AuthUser) (modId : Nat) :
    TraceInv (if !user.role.is_mod then do
      extCall ApiError.databaseError
      let s ← getSt
      match getFromUserIdMod s.db modId user.id with
      | none => M.throw ApiError.invalidInputError
      | some tm =>
        if !tm.permissions.delete_mod then
          M.throw ApiError.customAuthenticationError
        else M.pure ()
     else M.pure ()) := by
  apply TraceInv.ite
  · apply TraceInv.bind (traceInv_extCall _)
    intro _
    apply TraceInv.bind traceInv_getSt
    intro s
    cases getFromUserIdMod s.db modId user.id with
    | none => exact traceInv_throw _
    | some tm => exact TraceInv.ite _ (traceInv_throw _) (traceInv_pure _)
  · exact traceInv_pure _

/-- A successful `mod_delete` run from a quiescent state (whether it
returns 200 or 404) issues exactly one delete-by-id per engine
collection, keyed by the requested mod's delete key. -/
theorem mod_delete_ok_shape {env : SearchEnv} {user : AuthUser}
    {modId : Nat} {db : Db} {oracle : Nat → Bool} {n : Nat} {s' : EditSt}
    (h : mod_delete env user modId ⟨db, [], 0, oracle⟩ =
      (Except.ok n, s')) :
    s'.trace =
      env.collections.map (fun c => Effect.indexDelete c (deleteDocId modId)) := by
  unfold mod_delete at h
  obtain ⟨a1, s1, h1, h⟩ := M.bind_ok h
  obtain ⟨a2, s2, h2, h⟩ := M.bind_ok h
  have htr2 : s2.trace = s1.trace :=
    traceInv_apply (traceInv_deleteGuard user modId) h2
  obtain ⟨a3, s3, h3, h⟩ := M.bind_ok h
  obtain ⟨a4, s4, h4, h⟩ := M.bind_ok h
  obtain ⟨ha4, hs4⟩ := getSt_ok h4
  obtain ⟨a5, s5, h5, h⟩ := M.bind_ok h
  obtain ⟨a6, s6, h6, h⟩ := M.bind_ok h
  unfold deleteFromIndexM at h6
  obtain ⟨a7, s7, h7, h6⟩ := M.bind_ok h6
  have hshape := deleteLoop_shape modId env.collections s7 a6 s6 h6
  have hs'6 : s'.trace = s6.trace := by
    cases hex : ((a4.db.mods.find? (fun m => m.id == modId)).isSome : Bool)
    · rw [hex, if_neg (by simp)] at h
      exact congrArg EditSt.trace (pure_run h).2
    · rw [hex, if_pos rfl] at h
      exact congrArg EditSt.trace (pure_run h).2
  rw [hs'6, hshape, extCall_run h7, setDb_run h5, hs4, extCall_run h3,
    htr2, extCall_run h1]
  simp

/-! ## C2 -/

/-- C2: in a successful `mod_edit` request, when the edited entity's old
status is searchable and the new one is not, the request's effect trace
is exactly the synchronous delete-by-id of that entity's key in every
listed collection — issued within the same request — and contains no
Creation Queue add; when the old status is not searchable and the new one
is, the trace is exactly one Creation Queue add whose payload was built
by `query_one` on the transaction state, and contains no index delete. -/
theorem mod_edit_status_transition_effects (env : SearchEnv)
    (user : AuthUser) (modId : Nat) (req : EditMod) (db : Db)
    (oracle : Nat → Bool) (m : ModRow) (oldSt : ModStatus)
    (tr : List Effect) (db2 : Db)
    (hfull : getFull db modId = some (m, oldSt))
    (hrun : modEditRun env user modId req db oracle =
      (Except.ok 200, tr, db2)) :
    (∀ ns, req.status = some ns → oldSt.is_searchable = true →
      ns.is_searchable = false →
      tr = env.collections.map
        (fun c => Effect.indexDelete c (deleteDocId modId)) ∧
      ∀ d, Effect.queueAdd d ∉ tr) ∧
    (∀ ns, req.status = some ns → oldSt.is_searchable = false →
      ns.is_searchable = true →
      (∃ d dbq, tr = [Effect.queueAdd d] ∧
        query_one env dbq modId = Except.ok d) ∧
      ∀ c k, Effect.indexDelete c k ∉ tr) := by
  unfold modEditRun at hrun
  split at hrun
  · rename_i n s0 hme
    injection hrun with h1 h2
    injection h2 with h2a h2b
    have hn : n = 200 := by injection h1
    rw [hn] at hme
    obtain ⟨perms, sb, sb', hsb, hsb0, hsb1⟩ := mod_edit_ok_shape hfull hme
    constructor
    · intro ns hns hold hnew
      have hshape := statusBranch_delete_shape hns hold hnew hsb
      have htr : tr = env.collections.map
          (fun c => Effect.indexDelete c (deleteDocId modId)) := by
        rw [← h2a, hsb1, hshape, hsb0]
        simp
      refine ⟨htr, ?_⟩
      intro d hd
      rw [htr] at hd
      obtain ⟨c, _, hcd⟩ := List.mem_map.mp hd
      exact Effect.noConfusion hcd
    · intro ns hns hold hnew
      obtain ⟨d, dbq, htr', hq⟩ := statusBranch_add_shape hns hold hnew hsb
      have htr : tr = [Effect.queueAdd d] := by
        rw [← h2a, hsb1, htr', hsb0]
        simp
      refine ⟨⟨d, dbq, htr, hq⟩, ?_⟩
      intro c k hk
      rw [htr] at hk
      simp at hk
  · rename_i e s0 hme
    injection hrun with h1 _
    exact Except.noConfusion h1

set_option maxHeartbeats 1600000 in
/-- C2 witness: rejecting the approved concrete entity issues exactly the
synchronous per-collection delete and no queue add. -/
theorem mod_edit_status_transition_effects_witness :
    getFull exDb 1 = some (exMod1, ModStatus.approved) ∧
    modEditRun exEnv exUserMod 1 exReqReject exDb (fun _ => true) =
      (Except.ok 200, [Effect.indexDelete "mods" (deleteDocId 1)],
        exDbRejected) ∧
    ([Effect.indexDelete "mods" (deleteDocId 1)] =
      exEnv.collections.map (fun c => Effect.indexDelete c (deleteDocId 1)) ∧
     ∀ d, Effect.queueAdd d ∉ [Effect.indexDelete "mods" (deleteDocId 1)]) := by
  refine ⟨by rfl, by rfl, ?_⟩
  exact (mod_edit_status_transition_effects exEnv exUserMod 1 exReqReject
    exDb (fun _ => true) exMod1 ModStatus.approved
    [Effect.indexDelete "mods" (deleteDocId 1)] exDbRejected (by rfl)
    (by rfl)).1 ModStatus.rejected (by rfl) (by rfl) (by rfl)

/-! ## C4 -/

set_option maxHeartbeats 1600000 in
/-- C4 counterexample: editing the title of an already-indexed, still
searchable entity succeeds but enqueues nothing — the effect trace is
empty, so `mod_edit` does not rebuild the document with `query_one` nor
re-add it to the Creation Queue, contrary to the claim. -/
theorem mod_edit_title_edit_no_refresh :
    modEditRun exEnv exUserMod 1 exReqTitle exDb (fun _ => true) =
      (Except.ok 200, ([] : List Effect), exDbTitled) ∧
    ∀ d : UploadSearchMod, Effect.queueAdd d ∉ ([] : List Effect) := by
  exact ⟨by rfl, by simp⟩

/-- C4 (amended): an edit whose status change (if any) keeps
searchability unchanged — in particular every edit of an indexed entity
that remains searchable — performs no Creation Queue add and no index
operation at all: the request's effect trace is empty (the refresh only
happens at the next full reindex). -/
theorem mod_edit_searchable_preserving_no_index_effects (env : SearchEnv)
    (user : AuthUser) (modId : Nat) (req : EditMod) (db : Db)
    (oracle : Nat → Bool) (m : ModRow) (oldSt : ModStatus)
    (r : Except ApiError Nat) (tr : List Effect) (db2 : Db)
    (hfull : getFull db modId = some (m, oldSt))
    (hsame : ∀ ns, req.status = some ns →
      ns.is_searchable = oldSt.is_searchable)
    (hrun : modEditRun env user modId req db oracle = (r, tr, db2)) :
    tr = [] := by
  have hsame' : ∀ mi oldSt',
      getFull (EditSt.mk db [] 0 oracle).db modId = some (mi, oldSt') →
      ∀ ns, req.status = some ns →
        ns.is_searchable = oldSt'.is_searchable := by
    intro mi oldSt' hg ns hns
    have h' : some (m, oldSt) = some (mi, oldSt') := hfull.symm.trans hg
    injection h' with hpair
    injection hpair with hm ho
    rw [← ho]
    exact hsame ns hns
  unfold modEditRun at hrun
  split at hrun
  · rename_i n s0 hme
    injection hrun with h1 h2
    injection h2 with h2a h2b
    rw [← h2a]
    exact mod_edit_trace_pres hme hsame'
  · rename_i e s0 hme
    injection hrun with h1 h2
    injection h2 with h2a h2b
    rw [← h2a]
    exact mod_edit_trace_pres hme hsame'

set_option maxHeartbeats 1600000 in
/-- C4 (amended) witness: the concrete title edit leaves the trace
empty. -/
theorem mod_edit_searchable_preserving_no_index_effects_witness :
    getFull exDb 1 = some (exMod1, ModStatus.approved) ∧
    modEditRun exEnv exUserMod 1 exReqTitle exDb (fun _ => true) =
      (Except.ok 200, ([] : List Effect), exDbTitled) ∧
    ([] : List Effect) = [] := by
  refine ⟨by rfl, by rfl, ?_⟩
  exact mod_edit_searchable_preserving_no_index_effects exEnv exUserMod 1
    exReqTitle exDb (fun _ => true) exMod1 ModStatus.approved
    (Except.ok 200) [] exDbTitled (by rfl)
    (by intro ns hns; simp [exReqTitle, EditMod.empty] at hns) (by rfl)

/-! ## C7 -/

set_option maxHeartbeats 1600000 in
/-- C7 counterexample: a store-connectivity failure in the category
DELETE (external call 8), after the status branch has already issued its
synchronous index delete, makes `mod_edit` return an error with the store
rolled back but the index delete already performed — the search index is
not left as it was before the request. -/
theorem mod_edit_store_failure_after_sync_delete :
    modEditRun exEnv exUserMod 1 exReqRejectCats exDb (fun n => n != 8) =
      (Except.error ApiError.databaseError,
        [Effect.indexDelete "mods" (deleteDocId 1)], exDb) ∧
    [Effect.indexDelete "mods" (deleteDocId 1)] ≠ ([] : List Effect) := by
  exact ⟨by rfl, by simp⟩

/-- C7 (amended): an error return of `mod_edit` rolls the primary store
back to its pre-request state, and when the request contains no status
change the search index is untouched (empty effect trace); but a store
failure occurring after the status branch has issued its synchronous
delete (or queue add) leaves that index mutation in place, as the
counterexample shows. -/
theorem mod_edit_error_rollback_no_status_no_index (env : SearchEnv)
    (user : AuthUser) (modId : Nat) (req : EditMod) (db : Db)
    (oracle : Nat → Bool) (e : ApiError) (tr : List Effect) (db2 : Db)
    (hnost : req.status = none)
    (hrun : modEditRun env user modId req db oracle =
      (Except.error e, tr, db2)) :
    tr = [] ∧ db2 = db := by
  unfold modEditRun at hrun
  split at hrun
  · rename_i n s0 hme
    injection hrun with h1 _
    exact Except.noConfusion h1
  · rename_i e' s0 hme
    injection hrun with h1 h2
    injection h2 with h2a h2b
    constructor
    · rw [← h2a]
      refine mod_edit_trace_pres hme ?_
      intro mi oldSt hg ns hns
      rw [hnost] at hns
      exact Option.noConfusion hns
    · exact h2b.symm

set_option maxHeartbeats 1600000 in
/-- C7 (amended) witness: a failure of the very first store call on a
status-free request aborts with an empty trace and an unchanged store. -/
theorem mod_edit_error_rollback_no_status_no_index_witness :
    exReqTitle.status = none ∧
    modEditRun exEnv exUserMod 1 exReqTitle exDb (fun n => n != 0) =
      (Except.error ApiError.authenticationError, ([] : List Effect),
        exDb) ∧
    (([] : List Effect) = [] ∧ exDb = exDb) := by
  refine ⟨by rfl, by rfl, ?_⟩
  exact mod_edit_error_rollback_no_status_no_index exEnv exUserMod 1
    exReqTitle exDb (fun n => n != 0) ApiError.authenticationError []
    exDb (by rfl) (by rfl)

/-! ## C10 -/

/-- C10: every successful `mod_delete` request — including one that finds
no entity and answers 404 Not Found — issues the search-index
delete-by-id for the requested id in every listed collection, after the
primary-store removal attempt. -/
theorem mod_delete_deletes_unconditionally (env : SearchEnv)
    (user : AuthUser) (modId : Nat) (db : Db) (oracle : Nat → Bool)
    (r : Nat) (tr : List Effect) (db2 : Db)
    (hrun : modDeleteRun env user modId db oracle =
      (Except.ok r, tr, db2)) :
    tr = env.collections.map
      (fun c => Effect.indexDelete c (deleteDocId modId)) := by
  unfold modDeleteRun at hrun
  split at hrun
  · rename_i n s0 hme
    injection hrun with h1 h2
    injection h2 with h2a h2b
    rw [← h2a]
    exact mod_delete_ok_shape hme
  · rename_i e s0 hme
    injection hrun with h1 _
    exact Except.noConfusion h1

set_option maxHeartbeats 1600000 in
/-- C10 witness: deleting an id with no entity answers 404 yet still
issues the per-collection index delete. -/
theorem mod_delete_deletes_unconditionally_witness :
    modDeleteRun exEnv exUserMod 99 exDb (fun _ => true) =
      (Except.ok 404, [Effect.indexDelete "mods" (deleteDocId 99)],
        removeFullDb exDb 99) ∧
    [Effect.indexDelete "mods" (deleteDocId 99)] =
      exEnv.collections.map (fun c => Effect.indexDelete c (deleteDocId 99)) := by
  have hrun : modDeleteRun exEnv exUserMod 99 exDb (fun _ => true) =
      (Except.ok 404, [Effect.indexDelete "mods" (deleteDocId 99)],
        removeFullDb exDb 99) := by rfl
  exact ⟨hrun, mod_delete_deletes_unconditionally exEnv exUserMod 99 exDb
    (fun _ => true) 404 _ _ hrun⟩

end XivRepo
